import Mathlib

/-!
Verification of the lead-enrichment flattening core (`src/app.py`).

The Python source is shallowly embedded below.  JSON values are modelled by
the inductive type `JVal`; a parsed JSON object (a Python `dict`) is an
association list `List (String × JVal)` with unique keys and insertion
order, exactly as CPython dicts behave.  Python's `str()` coercion is
modelled by `pyStr`, truthiness by `truthy`, and dict assignment
(`d[k] = v`, which updates an existing key in place and otherwise appends)
by `dinsert`.  JSON numbers are carried by their canonical Python `str()`
rendering (e.g. `JVal.vnum "0.42"`), which avoids committing to a numeric
representation while keeping stringification exact.

Modelling notes, stated once here:
* `str.lower()` is modelled ASCII-only (`Char.toLower`); every string the
  program manipulates in the claims is ASCII.
* `re`'s `\d` is modelled as an ASCII digit; the month alternation in the
  validation regex is ASCII-only in the source as well.
* the `$` anchor of `re.match` also accepts one trailing newline, which is
  then rejected by `datetime.strptime`; both steps are modelled.
* `strftime('%Y-%m')` is modelled with a 4-digit zero-padded year; the
  program only ever formats years parsed from 4-digit input.
-/

/-- A Python/JSON value as produced by `response.json()`. -/
inductive JVal where
  | vnull : JVal
  | vbool : Bool → JVal
  | vnum : String → JVal
  | vstr : String → JVal
  | vlist : List JVal → JVal
  | vdict : List (String × JVal) → JVal
  deriving Repr

/-- A flattened output row: a Python dict from column name to cell value. -/
abbrev Row := List (String × JVal)

/-- A parsed JSON object (the enrichment document). -/
abbrev Doc := List (String × JVal)

mutual

/-- Python `repr()` on the modelled values (single-quoted strings, `True`,
`None`, bracketed lists, braced dicts). Only scalar cases are exercised by
the program; composites are included for totality. -/
def pyRepr : JVal → String
  | .vnull => "None"
  | .vbool b => if b then "True" else "False"
  | .vnum r => r
  | .vstr s => "'" ++ s ++ "'"
  | .vlist xs => "[" ++ pyReprList xs ++ "]"
  | .vdict es => "\x7b" ++ pyReprDict es ++ "\x7d"

/-- Comma-separated `repr` of list elements. -/
def pyReprList : List JVal → String
  | [] => ""
  | [x] => pyRepr x
  | x :: xs => pyRepr x ++ ", " ++ pyReprList xs

/-- Comma-separated `repr` of dict entries. -/
def pyReprDict : List (String × JVal) → String
  | [] => ""
  | [(k, v)] => "'" ++ k ++ "': " ++ pyRepr v
  | (k, v) :: es => "'" ++ k ++ "': " ++ pyRepr v ++ ", " ++ pyReprDict es

end

/-- Python `str()` on the modelled values. -/
def pyStr : JVal → String
  | .vstr s => s
  | v => pyRepr v

/-- Python truthiness of a value (`bool(v)`); a number is falsy exactly when
its canonical rendering is that of a zero. -/
def truthy : JVal → Bool
  | .vnull => false
  | .vbool b => b
  | .vnum r => !(r == "0" || r == "0.0" || r == "-0.0")
  | .vstr s => !(s == "")
  | .vlist xs => !xs.isEmpty
  | .vdict es => !es.isEmpty

/-- Python `x or y` specialised to the uses in the source (returns `x` when
truthy, else `y`). -/
def pyOr (x y : JVal) : JVal := if truthy x then x else y

/-- Python `d.get(k, dflt)` on a dict modelled as an association list. -/
def dget (d : List (String × JVal)) (k : String) (dflt : JVal) : JVal :=
  match d.find? (fun p => p.1 == k) with
  | some p => p.2
  | none => dflt

/-- Python `v == target` where `target` is a `str`: only a string compares
equal to a string; any other value (including `None` from a missing key)
compares unequal. -/
def jeqStr (v : JVal) (s : String) : Bool :=
  match v with
  | .vstr t => t == s
  | _ => false

/-- Python `v != ''`: true unless `v` is the empty string. -/
def jneEmptyStr (v : JVal) : Bool :=
  match v with
  | .vstr t => !(t == "")
  | _ => true

/-- Python dict assignment `m[k] = v`: update the existing key in place, or
append a new key at the end. -/
def dinsert (m : Row) (k : String) (v : JVal) : Row :=
  if m.any (fun p => p.1 == k) then
    m.map (fun p => if p.1 == k then (k, v) else p)
  else
    m ++ [(k, v)]

/-- Dict lookup `m[k]` as an option (also models `m.get(k)` via `Option`). -/
def rget (m : Row) (k : String) : Option JVal :=
  (m.find? (fun p => p.1 == k)).map (fun p => p.2)

/-- A parsed `datetime` at year-month granularity; `strptime(s, '%Y-%m')`
always yields day 1, so the day component is dropped. -/
structure Ym where
  year : Nat
  month : Nat
  deriving Repr, DecidableEq

/-- Month index `year*12 + month`, the order used to compare and count
months. -/
def ymIdx (d : Ym) : Nat := d.year * 12 + d.month

/-- Model of one `relativedelta(months=1)` step: December rolls to January
of the next year. -/
def nextMonth (d : Ym) : Ym :=
  if d.month == 12 then ⟨d.year + 1, 1⟩ else ⟨d.year, d.month + 1⟩

/-- A structurally valid month as produced by `strptime('%Y-%m')`: month in
1..12 and year in 1..9999. -/
def validYm (d : Ym) : Prop :=
  1 ≤ d.month ∧ d.month ≤ 12 ∧ 1 ≤ d.year ∧ d.year ≤ 9999

instance : DecidablePred validYm := fun d => by unfold validYm; infer_instance

/-- Loop of `get_date_range`, with the number of remaining iterations made
explicit so the recursion is structural (the loop runs exactly
`ymIdx b + 1 - ymIdx a` times, which the wrapper supplies). -/
def gdrAux : Nat → Ym → Ym → List Ym
  | 0, _, _ => []
  | fuel + 1, a, b =>
      if ymIdx a ≤ ymIdx b then a :: gdrAux fuel (nextMonth a) b else []

/-- Source `get_date_range` (lines 40-49): starting from the parsed start
month, append months while `current_date <= end`, stepping by
`relativedelta(months=1)`.  The source renders each month back to a
`YYYY-MM` string with `strftime`; that rendering is applied at the call
site in `fetch_lead_data` below. -/
def get_date_range (a b : Ym) : List Ym :=
  gdrAux (ymIdx b + 1 - ymIdx a) a b

/-- Numeric value of an ASCII digit character. -/
def digitVal (c : Char) : Nat := c.toNat - 48

/-- The month alternation of the validation regex: `0` followed by `1`-`9`,
or `1` followed by `0`-`2`. -/
def monthChars (a b : Char) : Bool :=
  (a == '0' && '1' ≤ b && b ≤ '9') || (a == '1' && '0' ≤ b && b ≤ '2')

/-- Model of `re.match` against the pattern of source line 25 (four digits,
a dash, a 01-12 month, end anchor): the `$` anchor also accepts exactly one
trailing newline. -/
def re_match_month (s : String) : Bool :=
  match s.data with
  | [y1, y2, y3, y4, h, a, b] =>
      y1.isDigit && y2.isDigit && y3.isDigit && y4.isDigit && h == '-' && monthChars a b
  | [y1, y2, y3, y4, h, a, b, nl] =>
      y1.isDigit && y2.isDigit && y3.isDigit && y4.isDigit && h == '-' && monthChars a b
        && nl == '\n'
  | _ => false

/-- Model of `datetime.strptime(s, '%Y-%m')` on the `YYYY-MM`-shaped inputs
reaching it: four digits, a dash, two digits; month must be 1..12 and year
at least 1 (year 0 raises `ValueError`); a year of four digits is at most
9999; any trailing character (such as the newline tolerated by the regex
anchor) raises `ValueError`, modelled as `none`. -/
def parseYm (s : String) : Option Ym :=
  match s.data with
  | [y1, y2, y3, y4, h, a, b] =>
      if y1.isDigit && y2.isDigit && y3.isDigit && y4.isDigit && h == '-'
          && a.isDigit && b.isDigit then
        let y := ((digitVal y1 * 10 + digitVal y2) * 10 + digitVal y3) * 10 + digitVal y4
        let m := digitVal a * 10 + digitVal b
        if 1 ≤ y && 1 ≤ m && m ≤ 12 then some ⟨y, m⟩ else none
      else none
  | _ => none

/-- Source `validate_date_format` (lines 22-30): the regex must match, then
`strptime` must succeed; a `ValueError` from either yields `False`. -/
def validate_date_format (s : String) : Bool :=
  re_match_month s && (parseYm s).isSome

/-- Zero-pad a numeral to width `w`, as `strftime` pads `%Y` and `%m`. -/
def padNum (w : Nat) (n : Nat) : String :=
  let s := toString n
  String.mk (List.replicate (w - s.length) '0') ++ s

/-- Model of `current_date.strftime('%Y-%m')`. -/
def ymToStr (d : Ym) : String :=
  padNum 4 d.year ++ "-" ++ padNum 2 d.month

/-- Inner loop of `get_metric_value` (source lines 79-82): the first dict
entry whose `date` equals the target wins (its `value`, default `None`);
non-dict entries and non-matching entries are skipped. -/
def gmvLoop (l : List JVal) (target : String) : JVal :=
  match l with
  | [] => .vstr ""
  | e :: rest =>
      match e with
      | .vdict d =>
          if jeqStr (dget d "date" .vnull) target then dget d "value" .vnull
          else gmvLoop rest target
      | _ => gmvLoop rest target

/-- Source `get_metric_value` (lines 76-82): the empty string on a non-list
argument, else the first date-matched entry's `value`. -/
def get_metric_value (v : JVal) (target : String) : JVal :=
  match v with
  | .vlist l => gmvLoop l target
  | _ => .vstr ""

/-- Source `parse_metadata` (lines 51-67): twelve fixed fields read from
the document with empty-string default, keyed by the given domain.  The
document values pass through unmodified — there is no `str()` coercion in
this function. -/
def parse_metadata (response_data : Doc) (domain : String) : Row :=
  [("domain", .vstr domain),
   ("global_rank", dget response_data "global_rank" (.vstr "")),
   ("category_rank", dget response_data "category_rank" (.vstr "")),
   ("company_name", dget response_data "company_name" (.vstr "")),
   ("site_type", dget response_data "site_type" (.vstr "")),
   ("site_type_new", dget response_data "site_type_new" (.vstr "")),
   ("employee_range", dget response_data "employee_range" (.vstr "")),
   ("estimated_revenue_in_usd", dget response_data "estimated_revenue_in_usd" (.vstr "")),
   ("online_revenue_range", dget response_data "online_revenue_range" (.vstr "")),
   ("headquarters", dget response_data "headquarters" (.vstr "")),
   ("website_category", dget response_data "website_category" (.vstr "")),
   ("website_category_new", dget response_data "website_category_new" (.vstr "")),
   ("zip_code", dget response_data "zip_code" (.vstr ""))]

/-- Model of `s.lower().replace(' ', '_')` (ASCII lowering; the two steps
commute with a character-wise map since `_` and ` ` are unaffected by
lowering). -/
def pyLowerUnd (s : String) : String :=
  String.mk (s.data.map (fun c => if c == ' ' then '_' else c.toLower))

/-- Body of the traffic-source loop for one entry (source lines 104-109).
Non-dict entries are skipped; a dict entry's `source_type` (default the
empty string) is lowered and underscored — a non-string value raises
`AttributeError` at `.lower()`, aborting the whole parse — and when the
transformed name is non-empty the column `traffic_<name>` is assigned the
stringified `share` (the empty string when `share == ''`). -/
def trafficEntry (m : Row) (src : JVal) : Except String Row :=
  match src with
  | .vdict d =>
      match dget d "source_type" (.vstr "") with
      | .vstr s =>
          if pyLowerUnd s == "" then .ok m
          else
            .ok (dinsert m ("traffic_" ++ pyLowerUnd s)
              (.vstr (if jneEmptyStr (dget d "share" (.vstr "")) then
                pyStr (dget d "share" (.vstr "")) else "")))
      | _ => .error "AttributeError"
  | _ => .ok m

/-- The traffic-source loop (source lines 103-109): `trafficEntry` applied
to each entry in order, aborting at the first raised exception. -/
def trafficFold (m : Row) (l : List JVal) : Except String Row :=
  match l with
  | [] => .ok m
  | src :: rest =>
      match trafficEntry m src with
      | .ok m2 => trafficFold m2 rest
      | .error e => .error e

/-- Dispatch on the date-matched `traffic_sources` value (source line 103):
only a list is iterated; anything else leaves the row unchanged. -/
def trafficStep (m : Row) (v : JVal) : Except String Row :=
  match v with
  | .vlist l => trafficFold m l
  | _ => .ok m

/-- Column name `geo_country_<i>`. -/
def geoKey (i : Nat) : String := "geo_country_" ++ toString i

/-- Column name `geo_country_share_<i>`. -/
def geoShareKey (i : Nat) : String := "geo_country_share_" ++ toString i

/-- Geography initialization (source lines 115-117): for `i` in 1..10 set
both `geo_country_i` and `geo_country_share_i` to the empty string. -/
def geoInit (m : Row) : Row :=
  (List.range' 1 10).foldl
    (fun m i => dinsert (dinsert m (geoKey i) (.vstr "")) (geoShareKey i) (.vstr "")) m

/-- Geography fill (source lines 120-123): `enumerate(arr[:10], 1)` — the
slot index `i` counts every entry (the truncation to ten is applied by the
caller); dict entries overwrite slot `i` with stringified `country` and
`share`, non-dict entries leave their slot untouched. -/
def geoFill (m : Row) (l : List JVal) (i : Nat) : Row :=
  match l with
  | [] => m
  | c :: rest =>
      match c with
      | .vdict d =>
          geoFill
            (dinsert (dinsert m (geoKey i) (.vstr (pyStr (dget d "country" (.vstr "")))))
              (geoShareKey i) (.vstr (pyStr (dget d "share" (.vstr ""))))) rest (i + 1)
      | _ => geoFill m rest (i + 1)

/-- Dispatch on the date-matched `geography_share` value (source line 113):
only a list triggers initialization and fill of the twenty columns;
anything else (including the empty string returned on no date match)
leaves the row without geography columns. -/
def geoStep (m : Row) (v : JVal) : Row :=
  match v with
  | .vlist l => geoFill (geoInit m) (l.take 10) 1
  | _ => m

/-- Mobile/desktop share (source lines 93-99): a date-matched dict yields
its two stringified sub-fields, anything else yields two empty strings. -/
def mdShare (m : Row) (v : JVal) : Row :=
  match v with
  | .vdict d =>
      dinsert (dinsert m "desktop_share" (.vstr (pyStr (dget d "desktop_share" (.vstr "")))))
        "mobile_share" (.vstr (pyStr (dget d "mobile_share" (.vstr ""))))
  | _ => dinsert (dinsert m "desktop_share" (.vstr "")) "mobile_share" (.vstr "")

/-- The six stringified basic metrics (`x or ''` then `str`), source lines
85-90: the shared shape of those six assignments. -/
def basicMetricVal (response_data : Doc) (key date : String) : JVal :=
  JVal.vstr (pyStr (pyOr (get_metric_value (dget response_data key (.vlist [])) date)
    (.vstr "")))

/-- The row built by `parse_time_series` before the traffic and geography
sections (source lines 71-99): `domain` and `date`, the six basic metrics,
and the two share fields. -/
def baseRow (response_data : Doc) (domain date : String) : Row :=
  let metrics : Row := [("domain", JVal.vstr domain), ("date", JVal.vstr date)]
  let metrics := dinsert metrics "visits" (basicMetricVal response_data "visits" date)
  let metrics := dinsert metrics "unique_visitors"
    (basicMetricVal response_data "unique_visitors" date)
  let metrics := dinsert metrics "bounce_rate" (basicMetricVal response_data "bounce_rate" date)
  let metrics := dinsert metrics "pages_per_visit"
    (basicMetricVal response_data "pages_per_visit" date)
  let metrics := dinsert metrics "average_visit_duration"
    (basicMetricVal response_data "average_visit_duration" date)
  let metrics := dinsert metrics "mom_growth" (basicMetricVal response_data "mom_growth" date)
  mdShare metrics
    (get_metric_value (dget response_data "mobile_desktop_share" (.vlist [])) date)

/-- Source `parse_time_series` (lines 69-125): the base row followed by the
traffic-source columns and the geography columns.  The result is fallible
because the traffic loop can raise. -/
def parse_time_series (response_data : Doc) (domain date : String) : Except String Row :=
  match trafficStep (baseRow response_data domain date)
      (get_metric_value (dget response_data "traffic_sources" (.vlist [])) date) with
  | .error e => .error e
  | .ok metrics =>
      .ok (geoStep metrics
        (get_metric_value (dget response_data "geography_share" (.vlist [])) date))

/-- Outcome of `requests.get`: an HTTP response carrying the status code,
the parsed JSON body (`none` when `response.json()` raises) and the raw
text, or a raised `requests.exceptions.RequestException` with its
message. -/
inductive FetchOutcome where
  | response (status : Nat) (json : Option JVal) (text : String)
  | requestExn (msg : String)

/-- The per-domain result dict of `fetch_lead_data`. -/
structure FetchResult where
  metadata : List Row
  time_series : List Row
  deriving Repr

/-- An error-shaped per-domain result: one metadata row carrying only the
domain and the error value, and no time-series rows.  The error value is a
`JVal` because the 403/other-status branches store the provider-supplied
`error_message` unmodified. -/
def errorResultV (domain : String) (v : JVal) : FetchResult :=
  ⟨[[("domain", .vstr domain), ("error", v)]], []⟩

/-- An error-shaped result with a plain string message. -/
def errorResult (domain msg : String) : FetchResult :=
  errorResultV domain (.vstr msg)

/-- Extraction of a truthy `meta.error_message` from a parsed error body,
with every failure (unparseable body, non-dict body, non-dict `meta`)
swallowed by the surrounding `try/except` as in the 403 branch. -/
def metaErrMsg (json : Option JVal) : Option JVal :=
  match json with
  | some (.vdict d) =>
      match dget d "meta" (.vdict []) with
      | .vdict mm =>
          let v := dget mm "error_message" .vnull
          if truthy v then some v else none
      | _ => none
  | _ => none

/-- Error value for the 403 branch (source lines 165-179). -/
def authErrMsg (json : Option JVal) : JVal :=
  match metaErrMsg json with
  | some v => v
  | none => .vstr "API authentication failed. Please check your API key and try again."

/-- Error value for the other non-200 branch (source lines 180-195): a
truthy `meta.error_message` wins; a parseable body without one yields the
generic message; an exception while reading the body falls back to
`response.text`, or to `HTTP Error <status>` when the text is empty. -/
def providerErrMsg (json : Option JVal) (text : String) (status : Nat) : JVal :=
  let fallback := JVal.vstr (if text == "" then "HTTP Error " ++ toString status else text)
  match json with
  | some (.vdict d) =>
      match dget d "meta" (.vdict []) with
      | .vdict mm =>
          let v := dget mm "error_message" .vnull
          if truthy v then v else .vstr "Unknown error occurred"
      | _ => fallback
  | _ => fallback

/-- Source `fetch_lead_data` (lines 127-211) with the HTTP transport
abstracted into a `FetchOutcome`; the URL and query-parameter construction
has no effect on the produced rows and is omitted.  On the 200 path, a
non-dict JSON body makes `parse_metadata` raise (surfaced as an
`Error processing data` row; the exact Python exception text is modelled
by a representative message, as is the version-dependent handling of an
unparseable 200 body), and the month range is rendered to
`YYYY-MM-01` strings exactly as on source line 157.  The inner
`match` on the parses of the validated bounds cannot take its fallback
branch: validation implies both parses succeed. -/
def fetch_lead_data (domain start_date end_date : String) (outcome : FetchOutcome) :
    FetchResult :=
  if validate_date_format start_date && validate_date_format end_date then
    match outcome with
    | .requestExn msg => errorResult domain ("Network error: " ++ msg)
    | .response status json text =>
        if status == 200 then
          match json with
          | some (.vdict data) =>
              let dates :=
                match parseYm start_date, parseYm end_date with
                | some a, some b => get_date_range a b
                | _, _ => []
              match dates.mapM
                  (fun d => parse_time_series data domain (ymToStr d ++ "-01")) with
              | .ok ts => ⟨[parse_metadata data domain], ts⟩
              | .error e => errorResult domain ("Error processing data: " ++ e)
          | some _ => errorResult domain ("Error processing data: " ++ "AttributeError")
          | none => errorResult domain ("Error processing data: " ++ "JSONDecodeError")
        else if status == 403 then
          errorResultV domain (authErrMsg json)
        else
          errorResultV domain (providerErrMsg json text status)
  else
    errorResult domain "Invalid date format. Please use YYYY-MM format."

/-- The error test of the batch loop (source line 671,
`result['metadata'][0].get('error')` under Python truthiness): a result
whose first metadata row has a truthy `error` value sets `has_errors` and
is skipped by `continue` — its rows are NOT appended to the accumulators;
otherwise both accumulators are extended.  `fetch_lead_data` always
returns exactly one metadata row; on an (unreachable) empty metadata list
the Python subscript would raise, modelled here as the non-error
branch. -/
def errFlag (r : FetchResult) : Bool :=
  match r.metadata with
  | row :: _ =>
      match rget row "error" with
      | some v => truthy v
      | none => false
  | [] => false

/-- One iteration of the batch loop, continued below. -/
def batchStep (acc : List Row × List Row × Bool) (r : FetchResult) :
    List Row × List Row × Bool :=
  if errFlag r then (acc.1, acc.2.1, true)
  else (acc.1 ++ r.metadata, acc.2.1 ++ r.time_series, acc.2.2)

/-- The batch accumulation loop over the domain list, with the fetch of one
domain abstracted as a function of the domain. -/
def process_batch (domains : List String) (fetch : String → FetchResult) :
    List Row × List Row × Bool :=
  domains.foldl (fun acc d => batchStep acc (fetch d)) ([], [], false)

/-- Boolean test that an array entry does NOT match the target date in the
sense of `get_metric_value`: either it is not a dict, or its `date` field
is not string-equal to the target. -/
def entryNoMatch (target : String) (x : JVal) : Bool :=
  match x with
  | .vdict d => !(jeqStr (dget d "date" .vnull) target)
  | _ => true

/-- Boolean test that a value found under a metric key yields no date
match: it is either not a list, or a list none of whose dict entries has a
`date` string-equal to the target. -/
def valueNoMatch (target : String) (v : JVal) : Bool :=
  match v with
  | .vlist l => l.all (entryNoMatch target)
  | _ => true

/-- The nine keys whose values `parse_time_series` passes through
`get_metric_value`. -/
def metricKeys : List String :=
  ["visits", "unique_visitors", "bounce_rate", "pages_per_visit",
   "average_visit_duration", "mom_growth", "mobile_desktop_share",
   "traffic_sources", "geography_share"]

/-- The ten column names present in every base row, in insertion order. -/
def baseKeys : List String :=
  ["domain", "date", "visits", "unique_visitors", "bounce_rate", "pages_per_visit",
   "average_visit_duration", "mom_growth", "desktop_share", "mobile_share"]

/-- The transformed name under which a traffic-source entry emits a column,
when it does: a dict entry with a string `source_type` whose lowered and
underscored form is non-empty. -/
def usableName (x : JVal) : Option String :=
  match x with
  | .vdict d =>
      match dget d "source_type" (.vstr "") with
      | .vstr s => if pyLowerUnd s == "" then none else some (pyLowerUnd s)
      | _ => none
  | _ => none

/-- The transformed names of the entries that emit columns, in order. -/
def usableNames (l : List JVal) : List String := l.filterMap usableName

/-- An entry the traffic loop can process without raising: anything except
a dict whose `source_type` is present and not a string. -/
def wellFormedSrc (x : JVal) : Bool :=
  match x with
  | .vdict d =>
      match dget d "source_type" (.vstr "") with
      | .vstr _ => true
      | _ => false
  | _ => true

/-- The cell value emitted for a traffic-source dict entry: the stringified
`share`, or the empty string when `share == ''`. -/
def srcShareVal (d : List (String × JVal)) : JVal :=
  .vstr (if jneEmptyStr (dget d "share" (.vstr "")) then
    pyStr (dget d "share" (.vstr "")) else "")

/-- Every cell of a row is a Python string. -/
def allStr (m : Row) : Prop := ∀ p ∈ m, ∃ s, p.2 = JVal.vstr s

/-! ## Lemmas, claim theorems and witnesses -/

theorem rget_dinsert (m : Row) (k k' : String) (v : JVal) :
    rget (dinsert m k v) k' = if k' = k then some v else rget m k' := by
  unfold dinsert rget
  by_cases hm : m.any (fun p => p.1 == k)
  · rw [if_pos hm, List.find?_map, Option.map_map]
    by_cases hk : k' = k
    · subst hk
      rw [if_pos rfl]
      have hpred : ((fun p : String × JVal => p.1 == k') ∘
          fun p => if p.1 == k' then (k', v) else p) =
          fun p : String × JVal => p.1 == k' := by
        funext p
        by_cases hp : p.1 = k' <;> simp [Function.comp, hp]
      rw [hpred]
      rcases hfind : m.find? (fun p => p.1 == k') with _ | x
      · rw [List.find?_eq_none] at hfind
        rcases List.any_eq_true.mp hm with ⟨x, hx, hxk⟩
        exact absurd hxk (hfind x hx)
      · have hx := List.find?_some hfind
        simp only [beq_iff_eq] at hx
        rw [hfind]
        simp [Function.comp, hx]
    · rw [if_neg hk]
      have hkk : (k == k') = false := by
        simp only [beq_eq_false_iff_ne]
        exact fun hh => hk hh.symm
      have hpred : ((fun p : String × JVal => p.1 == k') ∘
          fun p => if p.1 == k then (k, v) else p) =
          fun p : String × JVal => p.1 == k' := by
        funext p
        by_cases hp : p.1 = k <;> simp [Function.comp, hp, hkk]
      rw [hpred]
      rcases hfind : m.find? (fun p => p.1 == k') with _ | x
      · rw [hfind]
        rfl
      · have hx := List.find?_some hfind
        simp only [beq_iff_eq] at hx
        have hxk : (x.1 == k) = false := by
          simp only [beq_eq_false_iff_ne, hx]
          exact hk
        rw [hfind]
        have hxne : ¬x.1 = k := by
          rw [hx]; exact hk
        simp [Function.comp, hxne]
  · rw [if_neg hm, List.find?_append]
    by_cases hk : k' = k
    · subst hk
      rw [if_pos rfl]
      have h1 : m.find? (fun p => p.1 == k') = none := by
        rw [List.find?_eq_none]
        intro x hx hc
        exact hm (List.any_eq_true.mpr ⟨x, hx, hc⟩)
      simp [h1, List.find?]
    · rw [if_neg hk]
      have hkk : (k == k') = false := by
        simp only [beq_eq_false_iff_ne]
        exact fun hh => hk hh.symm
      have h2 : List.find? (fun p : String × JVal => p.1 == k') [(k, v)] = none := by
        simp [List.find?, hkk]
      simp [h2]

theorem rget_dinsert_self (m : Row) (k : String) (v : JVal) :
    rget (dinsert m k v) k = some v := by
  rw [rget_dinsert, if_pos rfl]

theorem rget_dinsert_ne (m : Row) (k k' : String) (v : JVal) (h : k' ≠ k) :
    rget (dinsert m k v) k' = rget m k' := by
  rw [rget_dinsert, if_neg h]

theorem ymIdx_nextMonth (d : Ym) : ymIdx (nextMonth d) = ymIdx d + 1 := by
  unfold nextMonth ymIdx
  by_cases h : d.month = 12
  · simp only [h, beq_self_eq_true, if_pos]
    omega
  · have hb : (d.month == 12) = false := by simp [h]
    simp only [hb, Bool.false_eq_true, if_neg, not_false_iff]
    omega

theorem get_date_range_eq (a b : Ym) :
    get_date_range a b =
      if ymIdx a ≤ ymIdx b then a :: get_date_range (nextMonth a) b else [] := by
  unfold get_date_range
  by_cases h : ymIdx a ≤ ymIdx b
  · rw [if_pos h]
    have hn : ymIdx b + 1 - ymIdx a = (ymIdx b + 1 - ymIdx (nextMonth a)) + 1 := by
      rw [ymIdx_nextMonth]; omega
    rw [hn]
    show (if ymIdx a ≤ ymIdx b then
        a :: gdrAux (ymIdx b + 1 - ymIdx (nextMonth a)) (nextMonth a) b else []) = _
    rw [if_pos h]
  · rw [if_neg h]
    have hn : ymIdx b + 1 - ymIdx a = 0 := by omega
    rw [hn]
    rfl

theorem gdr_nil (a b : Ym) (h : ¬ ymIdx a ≤ ymIdx b) : get_date_range a b = [] := by
  rw [get_date_range_eq, if_neg h]

theorem gdr_cons (a b : Ym) (h : ymIdx a ≤ ymIdx b) :
    get_date_range a b = a :: get_date_range (nextMonth a) b := by
  rw [get_date_range_eq, if_pos h]

theorem monthOk_nextMonth (d : Ym) (h : 1 ≤ d.month ∧ d.month ≤ 12) :
    1 ≤ (nextMonth d).month ∧ (nextMonth d).month ≤ 12 := by
  unfold nextMonth
  by_cases hm : d.month = 12
  · simp only [hm, beq_self_eq_true, if_pos]
    constructor <;> simp
  · have hb : (d.month == 12) = false := by simp [hm]
    simp only [hb, Bool.false_eq_true, if_neg, not_false_iff]
    constructor <;> omega

theorem ymIdx_iterate (a : Ym) (k : Nat) : ymIdx (nextMonth^[k] a) = ymIdx a + k := by
  induction k with
  | zero => rfl
  | succ k ih =>
      rw [Function.iterate_succ_apply', ymIdx_nextMonth, ih]
      omega

theorem ymEq_of_idx (a b : Ym) (ha : 1 ≤ a.month ∧ a.month ≤ 12)
    (hb : 1 ≤ b.month ∧ b.month ≤ 12) (h : ymIdx a = ymIdx b) : a = b := by
  unfold ymIdx at h
  cases a with
  | mk ya ma =>
    cases b with
    | mk yb mb =>
      simp only at h ha hb
      have hh : ya = yb ∧ ma = mb := by omega
      simp [hh.1, hh.2]

theorem gdr_length (a b : Ym) : (get_date_range a b).length = ymIdx b + 1 - ymIdx a := by
  generalize hn : ymIdx b + 1 - ymIdx a = n
  induction n generalizing a with
  | zero =>
      rw [gdr_nil a b (by omega)]
      rfl
  | succ n ih =>
      have hle : ymIdx a ≤ ymIdx b := by omega
      rw [gdr_cons a b hle, List.length_cons,
        ih (nextMonth a) (by rw [ymIdx_nextMonth]; omega)]

theorem gdr_head (a b : Ym) (h : ymIdx a ≤ ymIdx b) :
    (get_date_range a b).head? = some a := by
  rw [gdr_cons a b h]
  rfl

theorem gdr_getLast (a b : Ym) (ha : 1 ≤ a.month ∧ a.month ≤ 12)
    (hb : 1 ≤ b.month ∧ b.month ≤ 12) (h : ymIdx a ≤ ymIdx b) :
    (get_date_range a b).getLast? = some b := by
  generalize hn : ymIdx b - ymIdx a = n
  induction n generalizing a with
  | zero =>
      have heq : a = b := ymEq_of_idx a b ha hb (by omega)
      rw [gdr_cons a b h, gdr_nil (nextMonth a) b (by rw [ymIdx_nextMonth]; omega), heq]
      rfl
  | succ n ih =>
      have hle2 : ymIdx (nextMonth a) ≤ ymIdx b := by rw [ymIdx_nextMonth]; omega
      rw [gdr_cons a b h, gdr_cons (nextMonth a) b hle2, List.getLast?_cons_cons,
        ← gdr_cons (nextMonth a) b hle2]
      exact ih (nextMonth a) (monthOk_nextMonth a ha) hle2 (by rw [ymIdx_nextMonth]; omega)

theorem gdr_chain (a b : Ym) :
    List.Chain' (fun x y => y = nextMonth x) (get_date_range a b) := by
  generalize hn : ymIdx b + 1 - ymIdx a = n
  induction n generalizing a with
  | zero =>
      rw [gdr_nil a b (by omega)]
      exact List.chain'_nil
  | succ n ih =>
      have hle : ymIdx a ≤ ymIdx b := by omega
      rw [gdr_cons a b hle]
      by_cases h2 : ymIdx (nextMonth a) ≤ ymIdx b
      · rw [gdr_cons (nextMonth a) b h2, List.chain'_cons]
        refine ⟨rfl, ?_⟩
        rw [← gdr_cons (nextMonth a) b h2]
        exact ih (nextMonth a) (by rw [ymIdx_nextMonth]; omega)
      · rw [gdr_nil (nextMonth a) b h2]
        exact List.chain'_singleton a

theorem gdr_sorted (a b : Ym) :
    (get_date_range a b).Pairwise (fun x y => ymIdx x < ymIdx y) := by
  have hc : List.Chain' (fun x y => ymIdx x < ymIdx y) (get_date_range a b) := by
    refine List.Chain'.imp ?_ (gdr_chain a b)
    intro x y hxy
    rw [hxy, ymIdx_nextMonth]
    omega
  haveI : IsTrans Ym (fun x y => ymIdx x < ymIdx y) := ⟨fun _ _ _ h1 h2 => lt_trans h1 h2⟩
  exact List.chain'_iff_pairwise.mp hc

theorem gdr_getElem (a b : Ym) (k : Nat) (h : ymIdx a + k ≤ ymIdx b) :
    (get_date_range a b)[k]? = some (nextMonth^[k] a) := by
  induction k generalizing a with
  | zero =>
      rw [gdr_cons a b (by omega), List.getElem?_cons_zero, Function.iterate_zero_apply]
  | succ k ih =>
      rw [gdr_cons a b (by omega), List.getElem?_cons_succ, Function.iterate_succ_apply,
        ih (nextMonth a) (by rw [ymIdx_nextMonth]; omega)]

/-- C2: for every pair of valid year-month values with `start <= end`, the
month-range expander returns a sequence of length
`(end.year*12 + end.month) - (start.year*12 + start.month) + 1` that is
strictly increasing, starts at `start`, ends at `end`, and steps by exactly
one calendar month (December rolls to January, by definition of
`nextMonth`); when `start == end` it returns the single-element sequence
`[start]`. -/
theorem C2_month_range_expander (a b : Ym) (ha : validYm a) (hb : validYm b)
    (hle : ymIdx a ≤ ymIdx b) :
    (get_date_range a b).length = ymIdx b - ymIdx a + 1 ∧
    (get_date_range a b).head? = some a ∧
    (get_date_range a b).getLast? = some b ∧
    List.Chain' (fun x y => y = nextMonth x) (get_date_range a b) ∧
    (get_date_range a b).Pairwise (fun x y => ymIdx x < ymIdx y) ∧
    (a = b → get_date_range a b = [a]) := by
  obtain ⟨ham1, ham2, -, -⟩ := ha
  obtain ⟨hbm1, hbm2, -, -⟩ := hb
  refine ⟨?_, gdr_head a b hle, gdr_getLast a b ⟨ham1, ham2⟩ ⟨hbm1, hbm2⟩ hle,
    gdr_chain a b, gdr_sorted a b, ?_⟩
  · rw [gdr_length]
    omega
  · intro hab
    subst hab
    rw [gdr_cons a a (le_refl _), gdr_nil (nextMonth a) a (by rw [ymIdx_nextMonth]; omega)]

/-- Witness for C2 at the year-rollover example from the spec:
`expand(2024-11, 2025-02)`. -/
theorem C2_month_range_expander_witness :
    validYm ⟨2024, 11⟩ ∧ validYm ⟨2025, 2⟩ ∧ ymIdx ⟨2024, 11⟩ ≤ ymIdx ⟨2025, 2⟩ ∧
    ((get_date_range ⟨2024, 11⟩ ⟨2025, 2⟩).length = ymIdx ⟨2025, 2⟩ - ymIdx ⟨2024, 11⟩ + 1 ∧
     (get_date_range ⟨2024, 11⟩ ⟨2025, 2⟩).head? = some ⟨2024, 11⟩ ∧
     (get_date_range ⟨2024, 11⟩ ⟨2025, 2⟩).getLast? = some ⟨2025, 2⟩ ∧
     List.Chain' (fun x y => y = nextMonth x) (get_date_range ⟨2024, 11⟩ ⟨2025, 2⟩) ∧
     (get_date_range ⟨2024, 11⟩ ⟨2025, 2⟩).Pairwise (fun x y => ymIdx x < ymIdx y) ∧
     (Ym.mk 2024 11 = ⟨2025, 2⟩ → get_date_range ⟨2024, 11⟩ ⟨2025, 2⟩ = [⟨2024, 11⟩])) :=
  ⟨by decide, by decide, by decide,
    C2_month_range_expander ⟨2024, 11⟩ ⟨2025, 2⟩ (by decide) (by decide) (by decide)⟩

theorem gmvLoop_append_noMatch (pre rest : List JVal) (target : String)
    (hpre : pre.all (entryNoMatch target) = true) :
    gmvLoop (pre ++ rest) target = gmvLoop rest target := by
  induction pre with
  | nil => rfl
  | cons x xs ih =>
      rw [List.all_cons, Bool.and_eq_true] at hpre
      rw [List.cons_append]
      cases x with
      | vdict d =>
          have hd : jeqStr (dget d "date" .vnull) target = false := by
            have := hpre.1
            unfold entryNoMatch at this
            simpa using this
          simp only [gmvLoop, hd, Bool.false_eq_true, if_neg, not_false_iff]
          exact ih hpre.2
      | vnull => exact ih hpre.2
      | vbool bb => exact ih hpre.2
      | vnum r => exact ih hpre.2
      | vstr s => exact ih hpre.2
      | vlist l => exact ih hpre.2

/-- C10: for every metric array containing dict entries whose `date` field
equals the target date (two or more are allowed: the trailing part of the
array is unconstrained), the metric lookup returns the `value` of the
first such entry in array order; non-dict entries and non-matching dict
entries before it are skipped, and a non-list value under the metric key
yields the empty string. -/
theorem C10_first_match_wins (pre post : List JVal) (e : List (String × JVal))
    (target : String)
    (hmatch : jeqStr (dget e "date" .vnull) target = true)
    (hpre : pre.all (entryNoMatch target) = true) :
    get_metric_value (.vlist (pre ++ JVal.vdict e :: post)) target = dget e "value" .vnull ∧
    (∀ v : JVal, (∀ l, v ≠ .vlist l) → get_metric_value v target = .vstr "") := by
  constructor
  · show gmvLoop (pre ++ JVal.vdict e :: post) target = _
    rw [gmvLoop_append_noMatch pre _ target hpre]
    simp [gmvLoop, hmatch]
  · intro v hv
    cases v with
    | vlist l => exact absurd rfl (hv l)
    | vnull => rfl
    | vbool bb => rfl
    | vnum r => rfl
    | vstr s => rfl
    | vdict d => rfl

/-- Witness for C10: a skipped non-dict entry and a skipped non-matching
dict entry precede two entries matching `2024-01-01`; the first match's
value `1` wins over the later match's value `2`; a non-list metric value
yields the empty string. -/
theorem C10_first_match_wins_witness :
    jeqStr (dget [("date", JVal.vstr "2024-01-01"), ("value", JVal.vnum "1")] "date" .vnull)
      "2024-01-01" = true ∧
    ([JVal.vstr "skip", JVal.vdict [("date", JVal.vstr "2023-12-01")]].all
      (entryNoMatch "2024-01-01")) = true ∧
    get_metric_value
      (.vlist ([JVal.vstr "skip", JVal.vdict [("date", JVal.vstr "2023-12-01")]] ++
        JVal.vdict [("date", JVal.vstr "2024-01-01"), ("value", JVal.vnum "1")] ::
        [JVal.vdict [("date", JVal.vstr "2024-01-01"), ("value", JVal.vnum "2")]]))
      "2024-01-01" = JVal.vnum "1" ∧
    get_metric_value (.vstr "") "2024-01-01" = .vstr "" := by
  have h := C10_first_match_wins
    [JVal.vstr "skip", JVal.vdict [("date", JVal.vstr "2023-12-01")]]
    [JVal.vdict [("date", JVal.vstr "2024-01-01"), ("value", JVal.vnum "2")]]
    [("date", JVal.vstr "2024-01-01"), ("value", JVal.vnum "1")]
    "2024-01-01" (by decide) (by decide)
  exact ⟨by decide, by decide, h.1, h.2 (.vstr "") (fun l hl => JVal.noConfusion hl)⟩

theorem gmvLoop_noMatch (l : List JVal) (target : String)
    (h : l.all (entryNoMatch target) = true) : gmvLoop l target = .vstr "" := by
  have hh := gmvLoop_append_noMatch l [] target h
  simpa using hh

theorem get_metric_value_noMatch (v : JVal) (target : String)
    (h : valueNoMatch target v = true) : get_metric_value v target = .vstr "" := by
  cases v with
  | vlist l =>
      unfold valueNoMatch at h
      exact gmvLoop_noMatch l target h
  | vnull => rfl
  | vbool bb => rfl
  | vnum r => rfl
  | vstr s => rfl
  | vdict d => rfl

theorem emptyMetricVal :
    JVal.vstr (pyStr (pyOr (.vstr "") (.vstr ""))) = .vstr "" := rfl

theorem mdShare_vstr (m : Row) (s : String) :
    mdShare m (.vstr s) =
      dinsert (dinsert m "desktop_share" (.vstr "")) "mobile_share" (.vstr "") := rfl

theorem trafficStep_vstr (m : Row) (s : String) : trafficStep m (.vstr s) = .ok m := rfl

theorem geoStep_vstr (m : Row) (s : String) : geoStep m (.vstr s) = m := rfl

/-- C1: a metric entry counts as a match only when its `date` field is
string-equal to the target date (by definition of `get_metric_value` and
`jeqStr`); consequently, when every entry under every metric key fails the
string comparison — e.g. entries dated `2024-03` against the target
`2024-03-01` — the parse succeeds and every metric field of the
time-series row (the six basic metrics and the two share fields) is the
empty string. -/
theorem C1_exact_date_match (doc : Doc) (domain target : String)
    (hnm : ∀ k ∈ metricKeys, valueNoMatch target (dget doc k (.vlist [])) = true) :
    ∃ row, parse_time_series doc domain target = .ok row ∧
      rget row "visits" = some (.vstr "") ∧
      rget row "unique_visitors" = some (.vstr "") ∧
      rget row "bounce_rate" = some (.vstr "") ∧
      rget row "pages_per_visit" = some (.vstr "") ∧
      rget row "average_visit_duration" = some (.vstr "") ∧
      rget row "mom_growth" = some (.vstr "") ∧
      rget row "desktop_share" = some (.vstr "") ∧
      rget row "mobile_share" = some (.vstr "") := by
  have hb : ∀ k ∈ metricKeys, get_metric_value (dget doc k (.vlist [])) target = .vstr "" :=
    fun k hk => get_metric_value_noMatch _ target (hnm k hk)
  have h1 := hb "visits" (by simp [metricKeys])
  have h2 := hb "unique_visitors" (by simp [metricKeys])
  have h3 := hb "bounce_rate" (by simp [metricKeys])
  have h4 := hb "pages_per_visit" (by simp [metricKeys])
  have h5 := hb "average_visit_duration" (by simp [metricKeys])
  have h6 := hb "mom_growth" (by simp [metricKeys])
  have h7 := hb "mobile_desktop_share" (by simp [metricKeys])
  have h8 := hb "traffic_sources" (by simp [metricKeys])
  have h9 := hb "geography_share" (by simp [metricKeys])
  simp only [parse_time_series, baseRow, basicMetricVal, h1, h2, h3, h4, h5, h6, h7, h8, h9,
    emptyMetricVal, mdShare_vstr, trafficStep_vstr, geoStep_vstr]
  refine ⟨_, rfl, ?_, ?_, ?_, ?_, ?_, ?_, ?_, ?_⟩ <;>
    simp only [rget_dinsert, rget_dinsert_self] <;> simp

/-- Witness for C1: a document whose `visits` entries are dated `2024-03`
while the target is `2024-03-01` (the spec's date-format-mismatch
example). -/
theorem C1_exact_date_match_witness :
    (∀ k ∈ metricKeys, valueNoMatch "2024-03-01"
      (dget [("visits", JVal.vlist [JVal.vdict
        [("date", JVal.vstr "2024-03"), ("value", JVal.vnum "100")]])] k (.vlist [])) = true) ∧
    (∃ row, parse_time_series
        [("visits", JVal.vlist [JVal.vdict
          [("date", JVal.vstr "2024-03"), ("value", JVal.vnum "100")]])]
        "example.com" "2024-03-01" = .ok row ∧
      rget row "visits" = some (.vstr "") ∧
      rget row "unique_visitors" = some (.vstr "") ∧
      rget row "bounce_rate" = some (.vstr "") ∧
      rget row "pages_per_visit" = some (.vstr "") ∧
      rget row "average_visit_duration" = some (.vstr "") ∧
      rget row "mom_growth" = some (.vstr "") ∧
      rget row "desktop_share" = some (.vstr "") ∧
      rget row "mobile_share" = some (.vstr "")) :=
  ⟨by decide, C1_exact_date_match
    [("visits", JVal.vlist [JVal.vdict
      [("date", JVal.vstr "2024-03"), ("value", JVal.vnum "100")]])]
    "example.com" "2024-03-01" (by decide)⟩

theorem geoKey_inj : ∀ i, i ≤ 11 → ∀ j, j ≤ 11 → i ≠ j → geoKey i ≠ geoKey j := by decide

theorem geoKey_ne_shareKey : ∀ i, i ≤ 11 → ∀ j, j ≤ 11 → geoKey i ≠ geoShareKey j := by decide

theorem geoShareKey_inj :
    ∀ i, i ≤ 11 → ∀ j, j ≤ 11 → i ≠ j → geoShareKey i ≠ geoShareKey j := by decide

theorem rget_isSome_dinsert (m : Row) (k k' : String) (v : JVal)
    (h : (rget m k').isSome = true) : (rget (dinsert m k v) k').isSome = true := by
  rw [rget_dinsert]
  by_cases hk : k' = k
  · rw [if_pos hk]
    rfl
  · rw [if_neg hk]
    exact h

theorem rget_isSome_geoFill (l : List JVal) (m : Row) (i : Nat) (k : String)
    (h : (rget m k).isSome = true) : (rget (geoFill m l i) k).isSome = true := by
  induction l generalizing m i with
  | nil => exact h
  | cons c rest ih =>
      cases c with
      | vdict d =>
          simp only [geoFill]
          exact ih _ (i + 1) (rget_isSome_dinsert _ _ _ _ (rget_isSome_dinsert _ _ _ _ h))
      | vnull => exact ih m (i + 1) h
      | vbool b => exact ih m (i + 1) h
      | vnum r => exact ih m (i + 1) h
      | vstr s => exact ih m (i + 1) h
      | vlist xs => exact ih m (i + 1) h

theorem rget_geoFill_outside (l : List JVal) (m : Row) (i j : Nat)
    (hil : i + l.length ≤ 12) (hj : j ≤ 11) (hout : j < i ∨ i + l.length ≤ j) :
    rget (geoFill m l i) (geoKey j) = rget m (geoKey j) ∧
    rget (geoFill m l i) (geoShareKey j) = rget m (geoShareKey j) := by
  induction l generalizing m i with
  | nil => exact ⟨rfl, rfl⟩
  | cons c rest ih =>
      have hlen : (c :: rest).length = rest.length + 1 := List.length_cons c rest
      have hi11 : i ≤ 11 := by omega
      have hji : j ≠ i := by
        rcases hout with h | h
        · omega
        · rw [hlen] at h; omega
      have hout2 : j < i + 1 ∨ (i + 1) + rest.length ≤ j := by
        rcases hout with h | h
        · exact Or.inl (by omega)
        · rw [hlen] at h; exact Or.inr (by omega)
      have hil2 : (i + 1) + rest.length ≤ 12 := by rw [hlen] at hil; omega
      cases c with
      | vdict d =>
          simp only [geoFill]
          have hih := ih
            (dinsert (dinsert m (geoKey i) (.vstr (pyStr (dget d "country" (.vstr "")))))
              (geoShareKey i) (.vstr (pyStr (dget d "share" (.vstr "")))))
            (i + 1) hil2 hout2
          refine ⟨?_, ?_⟩
          · rw [hih.1, rget_dinsert_ne _ _ _ _ (geoKey_ne_shareKey j hj i hi11),
              rget_dinsert_ne _ _ _ _ (geoKey_inj j hj i hi11 hji)]
          · rw [hih.2, rget_dinsert_ne _ _ _ _ (geoShareKey_inj j hj i hi11 hji),
              rget_dinsert_ne _ _ _ _ (fun hc => geoKey_ne_shareKey i hi11 j hj hc.symm)]
      | vnull => exact ih m (i + 1) hil2 hout2
      | vbool b => exact ih m (i + 1) hil2 hout2
      | vnum r => exact ih m (i + 1) hil2 hout2
      | vstr s => exact ih m (i + 1) hil2 hout2
      | vlist xs => exact ih m (i + 1) hil2 hout2

theorem rget_geoFill_hit (l1 : List JVal) (l2 : List JVal) (d : List (String × JVal))
    (m : Row) (i : Nat) (hlen : i + l1.length + 1 + l2.length ≤ 12) (hi : 1 ≤ i) :
    rget (geoFill m (l1 ++ .vdict d :: l2) i) (geoKey (i + l1.length)) =
      some (.vstr (pyStr (dget d "country" (.vstr "")))) ∧
    rget (geoFill m (l1 ++ .vdict d :: l2) i) (geoShareKey (i + l1.length)) =
      some (.vstr (pyStr (dget d "share" (.vstr "")))) := by
  induction l1 generalizing m i with
  | nil =>
      simp only [List.nil_append, List.length_nil, Nat.add_zero, geoFill]
      have hi11 : i ≤ 11 := by simp at hlen; omega
      have houts := rget_geoFill_outside l2
        (dinsert (dinsert m (geoKey i) (.vstr (pyStr (dget d "country" (.vstr "")))))
          (geoShareKey i) (.vstr (pyStr (dget d "share" (.vstr "")))))
        (i + 1) i (by simp at hlen; omega) hi11 (Or.inl (by omega))
      refine ⟨?_, ?_⟩
      · rw [houts.1, rget_dinsert_ne _ _ _ _ (geoKey_ne_shareKey i hi11 i hi11),
          rget_dinsert_self]
      · rw [houts.2, rget_dinsert_self]
  | cons c l1' ih =>
      have hidx : i + (c :: l1').length = (i + 1) + l1'.length := by
        rw [List.length_cons]; omega
      have hk1 : geoKey (i + (c :: l1').length) = geoKey ((i + 1) + l1'.length) := by
        rw [hidx]
      have hk2 : geoShareKey (i + (c :: l1').length) = geoShareKey ((i + 1) + l1'.length) := by
        rw [hidx]
      have hlen2 : (i + 1) + l1'.length + 1 + l2.length ≤ 12 := by
        rw [List.length_cons] at hlen; omega
      rw [List.cons_append, hk1, hk2]
      cases c with
      | vdict d' =>
          simp only [geoFill]
          exact ih _ (i + 1) hlen2 (by omega)
      | vnull => exact ih m (i + 1) hlen2 (by omega)
      | vbool b => exact ih m (i + 1) hlen2 (by omega)
      | vnum r => exact ih m (i + 1) hlen2 (by omega)
      | vstr s => exact ih m (i + 1) hlen2 (by omega)
      | vlist xs => exact ih m (i + 1) hlen2 (by omega)

theorem rget_mdShare_other (m : Row) (v : JVal) (k : String)
    (h1 : k ≠ "desktop_share") (h2 : k ≠ "mobile_share") :
    rget (mdShare m v) k = rget m k := by
  cases v <;> simp only [mdShare] <;>
    rw [rget_dinsert_ne _ _ _ _ h2, rget_dinsert_ne _ _ _ _ h1]

theorem rget_baseRow_none (doc : Doc) (domain date k : String) (hk : k ∉ baseKeys) :
    rget (baseRow doc domain date) k = none := by
  simp only [baseKeys, List.mem_cons, List.not_mem_nil, or_false] at hk
  push_neg at hk
  obtain ⟨n1, n2, n3, n4, n5, n6, n7, n8, n9, n10⟩ := hk
  unfold baseRow
  rw [rget_mdShare_other _ _ _ n9 n10, rget_dinsert_ne _ _ _ _ n8, rget_dinsert_ne _ _ _ _ n7,
    rget_dinsert_ne _ _ _ _ n6, rget_dinsert_ne _ _ _ _ n5, rget_dinsert_ne _ _ _ _ n4,
    rget_dinsert_ne _ _ _ _ n3]
  unfold rget
  have b1 : ("domain" == k) = false := by simp [Ne.symm n1]
  have b2 : ("date" == k) = false := by simp [Ne.symm n2]
  simp [List.find?, b1, b2]

theorem rget_baseRow_domain (doc : Doc) (domain date : String) :
    rget (baseRow doc domain date) "domain" = some (.vstr domain) := by
  unfold baseRow
  rw [rget_mdShare_other _ _ _ (by decide) (by decide), rget_dinsert_ne _ _ _ _ (by decide),
    rget_dinsert_ne _ _ _ _ (by decide), rget_dinsert_ne _ _ _ _ (by decide),
    rget_dinsert_ne _ _ _ _ (by decide), rget_dinsert_ne _ _ _ _ (by decide),
    rget_dinsert_ne _ _ _ _ (by decide)]
  rfl

theorem rget_baseRow_date (doc : Doc) (domain date : String) :
    rget (baseRow doc domain date) "date" = some (.vstr date) := by
  unfold baseRow
  rw [rget_mdShare_other _ _ _ (by decide) (by decide), rget_dinsert_ne _ _ _ _ (by decide),
    rget_dinsert_ne _ _ _ _ (by decide), rget_dinsert_ne _ _ _ _ (by decide),
    rget_dinsert_ne _ _ _ _ (by decide), rget_dinsert_ne _ _ _ _ (by decide),
    rget_dinsert_ne _ _ _ _ (by decide)]
  rfl

theorem trafficEntry_preserve (m m2 : Row) (src : JVal)
    (h : trafficEntry m src = .ok m2) (k : String) (hk : ∀ s, k ≠ "traffic_" ++ s) :
    rget m2 k = rget m k := by
  cases src with
  | vdict d =>
      rcases hst : dget d "source_type" (.vstr "") with _ | b | r | s | xs | es <;>
        simp only [trafficEntry, hst] at h
      case vstr =>
        by_cases hempty : pyLowerUnd s == ""
        · rw [if_pos hempty] at h
          injection h with h
          rw [h]
        · rw [if_neg hempty] at h
          injection h with h
          rw [← h, rget_dinsert_ne _ _ _ _ (hk (pyLowerUnd s))]
      all_goals exact absurd h (by simp)
  | vnull => simp only [trafficEntry] at h; injection h with h; rw [h]
  | vbool b => simp only [trafficEntry] at h; injection h with h; rw [h]
  | vnum r => simp only [trafficEntry] at h; injection h with h; rw [h]
  | vstr s => simp only [trafficEntry] at h; injection h with h; rw [h]
  | vlist xs => simp only [trafficEntry] at h; injection h with h; rw [h]

theorem trafficFold_preserve (l : List JVal) (m m' : Row)
    (h : trafficFold m l = .ok m') (k : String) (hk : ∀ s, k ≠ "traffic_" ++ s) :
    rget m' k = rget m k := by
  induction l generalizing m with
  | nil =>
      unfold trafficFold at h
      injection h with h
      rw [h]
  | cons src rest ih =>
      unfold trafficFold at h
      rcases hte : trafficEntry m src with e | m2 <;> rw [hte] at h
      · exact absurd h (by simp)
      · rw [ih m2 h, trafficEntry_preserve m m2 src hte k hk]

theorem trafficStep_preserve (v : JVal) (m m' : Row)
    (h : trafficStep m v = .ok m') (k : String) (hk : ∀ s, k ≠ "traffic_" ++ s) :
    rget m' k = rget m k := by
  cases v with
  | vlist l => exact trafficFold_preserve l m m' h k hk
  | vnull => injection h with h; rw [h]
  | vbool b => injection h with h; rw [h]
  | vnum r => injection h with h; rw [h]
  | vstr s => injection h with h; rw [h]
  | vdict d => injection h with h; rw [h]

theorem ne_traffic_of_head (k : String) (c : Char) (hc : k.data.head? = some c)
    (hct : c ≠ 't') : ∀ s, k ≠ "traffic_" ++ s := by
  intro s h
  have hd := congrArg String.data h
  rw [String.data_append] at hd
  have h2 : k.data.head? = some 't' := by rw [hd]; rfl
  rw [hc] at h2
  injection h2 with h2
  exact hct h2

theorem geoKey_head : ∀ i, i ≤ 11 → (geoKey i).data.head? = some 'g' := by decide

theorem geoShareKey_head : ∀ i, i ≤ 11 → (geoShareKey i).data.head? = some 'g' := by decide

theorem geoKey_notin_base :
    ∀ i, i ≤ 11 → geoKey i ∉ baseKeys ∧ geoShareKey i ∉ baseKeys := by decide

/-- Destructuring of a successful `parse_time_series`: the traffic stage
succeeded and the row is its result with the geography stage applied. -/
theorem parse_time_series_ok (doc : Doc) (domain date : String) (row : Row)
    (h : parse_time_series doc domain date = .ok row) :
    ∃ m', trafficStep (baseRow doc domain date)
        (get_metric_value (dget doc "traffic_sources" (.vlist [])) date) = .ok m' ∧
      row = geoStep m'
        (get_metric_value (dget doc "geography_share" (.vlist [])) date) := by
  unfold parse_time_series at h
  rcases htr : trafficStep (baseRow doc domain date)
      (get_metric_value (dget doc "traffic_sources" (.vlist [])) date) with e | m' <;>
    rw [htr] at h
  · exact absurd h (by simp)
  · injection h with h
    exact ⟨m', rfl, h.symm⟩

theorem rget_foldInit_notMem (is : List Nat) (m : Row) (j : Nat) (hj : j ≤ 11)
    (his : ∀ x ∈ is, x ≤ 11) (hnm : j ∉ is) :
    rget (is.foldl
        (fun m i => dinsert (dinsert m (geoKey i) (.vstr "")) (geoShareKey i) (.vstr "")) m)
      (geoKey j) = rget m (geoKey j) ∧
    rget (is.foldl
        (fun m i => dinsert (dinsert m (geoKey i) (.vstr "")) (geoShareKey i) (.vstr "")) m)
      (geoShareKey j) = rget m (geoShareKey j) := by
  induction is generalizing m with
  | nil => exact ⟨rfl, rfl⟩
  | cons x rest ih =>
      simp only [List.foldl_cons]
      have hx : x ≤ 11 := his x (List.mem_cons_self x rest)
      have hjx : j ≠ x := fun hh => hnm (hh ▸ List.mem_cons_self x rest)
      have hrest : ∀ y ∈ rest, y ≤ 11 := fun y hy => his y (List.mem_cons_of_mem _ hy)
      have hnr : j ∉ rest := fun hh => hnm (List.mem_cons_of_mem _ hh)
      have hih := ih (dinsert (dinsert m (geoKey x) (.vstr "")) (geoShareKey x) (.vstr ""))
        hrest hnr
      refine ⟨?_, ?_⟩
      · rw [hih.1, rget_dinsert_ne _ _ _ _ (geoKey_ne_shareKey j hj x hx),
          rget_dinsert_ne _ _ _ _ (geoKey_inj j hj x hx hjx)]
      · rw [hih.2, rget_dinsert_ne _ _ _ _ (geoShareKey_inj j hj x hx hjx),
          rget_dinsert_ne _ _ _ _ (fun hc => geoKey_ne_shareKey x hx j hj hc.symm)]

theorem rget_foldInit_mem (is : List Nat) (m : Row) (j : Nat) (hj : j ≤ 11)
    (his : ∀ x ∈ is, x ≤ 11) (hmem : j ∈ is) (hnd : is.Nodup) :
    rget (is.foldl
        (fun m i => dinsert (dinsert m (geoKey i) (.vstr "")) (geoShareKey i) (.vstr "")) m)
      (geoKey j) = some (.vstr "") ∧
    rget (is.foldl
        (fun m i => dinsert (dinsert m (geoKey i) (.vstr "")) (geoShareKey i) (.vstr "")) m)
      (geoShareKey j) = some (.vstr "") := by
  induction is generalizing m with
  | nil => cases hmem
  | cons x rest ih =>
      simp only [List.foldl_cons]
      have hx : x ≤ 11 := his x (List.mem_cons_self x rest)
      have hrest : ∀ y ∈ rest, y ≤ 11 := fun y hy => his y (List.mem_cons_of_mem _ hy)
      rcases List.mem_cons.mp hmem with heq | hmr
      · subst heq
        have hnr : j ∉ rest := (List.nodup_cons.mp hnd).1
        have hout := rget_foldInit_notMem rest
          (dinsert (dinsert m (geoKey j) (.vstr "")) (geoShareKey j) (.vstr ""))
          j hj hrest hnr
        refine ⟨?_, ?_⟩
        · rw [hout.1, rget_dinsert_ne _ _ _ _ (geoKey_ne_shareKey j hj j hj),
            rget_dinsert_self]
        · rw [hout.2, rget_dinsert_self]
      · exact ih _ hrest hmr (List.nodup_cons.mp hnd).2

theorem rget_geoInit (m : Row) (j : Nat) (h1 : 1 ≤ j) (h2 : j ≤ 10) :
    rget (geoInit m) (geoKey j) = some (.vstr "") ∧
    rget (geoInit m) (geoShareKey j) = some (.vstr "") := by
  unfold geoInit
  refine rget_foldInit_mem (List.range' 1 10) m j (by omega) ?_ ?_ (by decide)
  · intro x hx
    rw [List.mem_range'] at hx
    obtain ⟨i, hi, hxi⟩ := hx
    omega
  · rw [List.mem_range']
    exact ⟨j - 1, by omega, by omega⟩

theorem rget_geoInit_other (m : Row) (k : String)
    (hother : ∀ i, i ≤ 11 → k ≠ geoKey i ∧ k ≠ geoShareKey i) :
    rget (geoInit m) k = rget m k := by
  unfold geoInit
  have hgen : ∀ (is : List Nat), (∀ x ∈ is, x ≤ 11) → ∀ (m0 : Row),
      rget (is.foldl
        (fun m i => dinsert (dinsert m (geoKey i) (.vstr "")) (geoShareKey i) (.vstr "")) m0)
        k = rget m0 k := by
    intro is
    induction is with
    | nil => intro _ m0; rfl
    | cons x rest ih =>
        intro his m0
        simp only [List.foldl_cons]
        have hx : x ≤ 11 := his x (List.mem_cons_self x rest)
        rw [ih (fun y hy => his y (List.mem_cons_of_mem _ hy)) _,
          rget_dinsert_ne _ _ _ _ (hother x hx).2, rget_dinsert_ne _ _ _ _ (hother x hx).1]
  refine hgen (List.range' 1 10) ?_ m
  intro x hx
  rw [List.mem_range'] at hx
  obtain ⟨i, hi, hxi⟩ := hx
  omega

theorem rget_geoFill_other (l : List JVal) (m : Row) (i : Nat) (k : String)
    (hother : ∀ j, j ≤ 11 → k ≠ geoKey j ∧ k ≠ geoShareKey j)
    (hil : i + l.length ≤ 12) :
    rget (geoFill m l i) k = rget m k := by
  induction l generalizing m i with
  | nil => rfl
  | cons c rest ih =>
      have hlen : (c :: rest).length = rest.length + 1 := List.length_cons c rest
      have hi11 : i ≤ 11 := by omega
      have hil2 : (i + 1) + rest.length ≤ 12 := by rw [hlen] at hil; omega
      cases c with
      | vdict d =>
          simp only [geoFill]
          rw [ih _ (i + 1) hil2, rget_dinsert_ne _ _ _ _ (hother i hi11).2,
            rget_dinsert_ne _ _ _ _ (hother i hi11).1]
      | vnull => exact ih m (i + 1) hil2
      | vbool b => exact ih m (i + 1) hil2
      | vnum r => exact ih m (i + 1) hil2
      | vstr s => exact ih m (i + 1) hil2
      | vlist xs => exact ih m (i + 1) hil2

theorem take10_decomp (l : List JVal) (idx : Nat) (x : JVal) (hidx : idx < 10)
    (hx : l[idx]? = some x) :
    ∃ l1 l2, l.take 10 = l1 ++ x :: l2 ∧ l1.length = idx ∧
      idx + 1 + l2.length = min 10 l.length := by
  have hxt : (l.take 10)[idx]? = some x := by
    rw [List.getElem?_take_of_lt hidx]
    exact hx
  obtain ⟨hlt, hval⟩ := List.getElem?_eq_some_iff.mp hxt
  have e1 : l.take 10 = (l.take 10).take idx ++ (l.take 10).drop idx :=
    (List.take_append_drop idx (l.take 10)).symm
  rw [List.drop_eq_getElem_cons hlt, hval] at e1
  have hlt2 : idx < min 10 l.length := by
    rw [List.length_take] at hlt
    exact hlt
  refine ⟨(l.take 10).take idx, (l.take 10).drop (idx + 1), e1, ?_, ?_⟩
  · rw [List.length_take, List.length_take]
    omega
  · have e2 := congrArg List.length e1
    rw [List.length_append, List.length_cons, List.length_take, List.length_take] at e2
    rw [List.length_drop, List.length_take] at e2 ⊢
    omega

/-- C4: for every date-matched geography array, the flattener initializes
all twenty geography columns to empty string and fills exactly the first
`min 10 n` slots positionally in array order with each (dict) entry's
stringified `country` and `share`; slots `min 10 n + 1 .. 10` keep the
empty string, and entries beyond the tenth are dropped (only slots 1..10
exist). -/
theorem C4_geography_positional (doc : Doc) (domain date : String) (row : Row)
    (l : List JVal)
    (hparse : parse_time_series doc domain date = .ok row)
    (hgv : get_metric_value (dget doc "geography_share" (.vlist [])) date = .vlist l) :
    (∀ i, 1 ≤ i → i ≤ min 10 l.length → ∀ d, l[i - 1]? = some (.vdict d) →
      rget row (geoKey i) = some (.vstr (pyStr (dget d "country" (.vstr "")))) ∧
      rget row (geoShareKey i) = some (.vstr (pyStr (dget d "share" (.vstr ""))))) ∧
    (∀ i, min 10 l.length < i → i ≤ 10 →
      rget row (geoKey i) = some (.vstr "") ∧ rget row (geoShareKey i) = some (.vstr "")) := by
  obtain ⟨m', htr, hrow⟩ := parse_time_series_ok doc domain date row hparse
  rw [hgv] at hrow
  simp only [geoStep] at hrow
  constructor
  · intro i h1 h2 d hl
    have hmin : min 10 l.length ≤ 10 := Nat.min_le_left 10 l.length
    have hidx : i - 1 < 10 := by omega
    obtain ⟨l1, l2, hdecomp, hl1, hl2⟩ := take10_decomp l (i - 1) (.vdict d) hidx hl
    subst hrow
    rw [hdecomp]
    have hlen : 1 + l1.length + 1 + l2.length ≤ 12 := by omega
    have hkey : geoKey i = geoKey (1 + l1.length) := by rw [hl1]; congr 1; omega
    have hkey2 : geoShareKey i = geoShareKey (1 + l1.length) := by rw [hl1]; congr 1; omega
    rw [hkey, hkey2]
    exact rget_geoFill_hit l1 l2 d (geoInit m') 1 hlen (le_refl 1)
  · intro i h1 h2
    have hmin : min 10 l.length ≤ 10 := Nat.min_le_left 10 l.length
    subst hrow
    have houts := rget_geoFill_outside (l.take 10) (geoInit m') 1 i
      (by rw [List.length_take]; omega) (by omega)
      (Or.inr (by rw [List.length_take]; omega))
    have hini := rget_geoInit m' i (by omega) h2
    exact ⟨houts.1.trans hini.1, houts.2.trans hini.2⟩

/-- Witness for C4: three geography entries for the matched month populate
slots 1..3 in array order and slots 4..10 stay empty (the spec's
geography-padding example). -/
theorem C4_geography_positional_witness :
    ∃ row, parse_time_series
        [("geography_share", JVal.vlist [JVal.vdict
          [("date", JVal.vstr "2024-01-01"),
           ("value", JVal.vlist
             [JVal.vdict [("country", JVal.vstr "US"), ("share", JVal.vnum "0.5")],
              JVal.vdict [("country", JVal.vstr "GB"), ("share", JVal.vnum "0.2")],
              JVal.vdict [("country", JVal.vstr "DE"), ("share", JVal.vnum "0.1")]])]])]
        "example.com" "2024-01-01" = .ok row ∧
      rget row (geoKey 1) = some (.vstr "US") ∧
      rget row (geoShareKey 1) = some (.vstr "0.5") ∧
      rget row (geoKey 2) = some (.vstr "GB") ∧
      rget row (geoKey 3) = some (.vstr "DE") ∧
      rget row (geoKey 4) = some (.vstr "") ∧
      rget row (geoShareKey 10) = some (.vstr "") := by
  refine ⟨_, rfl, ?_, ?_, ?_, ?_, ?_, ?_⟩
  · exact (C4_geography_positional [("geography_share", JVal.vlist [JVal.vdict
        [("date", JVal.vstr "2024-01-01"),
         ("value", JVal.vlist
           [JVal.vdict [("country", JVal.vstr "US"), ("share", JVal.vnum "0.5")],
            JVal.vdict [("country", JVal.vstr "GB"), ("share", JVal.vnum "0.2")],
            JVal.vdict [("country", JVal.vstr "DE"), ("share", JVal.vnum "0.1")]])]])] "example.com" "2024-01-01" _
      [JVal.vdict [("country", JVal.vstr "US"), ("share", JVal.vnum "0.5")],
       JVal.vdict [("country", JVal.vstr "GB"), ("share", JVal.vnum "0.2")],
       JVal.vdict [("country", JVal.vstr "DE"), ("share", JVal.vnum "0.1")]]
      rfl rfl).1 1 (by decide) (by decide)
      [("country", JVal.vstr "US"), ("share", JVal.vnum "0.5")] rfl |>.1
  · exact (C4_geography_positional [("geography_share", JVal.vlist [JVal.vdict
        [("date", JVal.vstr "2024-01-01"),
         ("value", JVal.vlist
           [JVal.vdict [("country", JVal.vstr "US"), ("share", JVal.vnum "0.5")],
            JVal.vdict [("country", JVal.vstr "GB"), ("share", JVal.vnum "0.2")],
            JVal.vdict [("country", JVal.vstr "DE"), ("share", JVal.vnum "0.1")]])]])] "example.com" "2024-01-01" _
      [JVal.vdict [("country", JVal.vstr "US"), ("share", JVal.vnum "0.5")],
       JVal.vdict [("country", JVal.vstr "GB"), ("share", JVal.vnum "0.2")],
       JVal.vdict [("country", JVal.vstr "DE"), ("share", JVal.vnum "0.1")]]
      rfl rfl).1 1 (by decide) (by decide)
      [("country", JVal.vstr "US"), ("share", JVal.vnum "0.5")] rfl |>.2
  · exact (C4_geography_positional [("geography_share", JVal.vlist [JVal.vdict
        [("date", JVal.vstr "2024-01-01"),
         ("value", JVal.vlist
           [JVal.vdict [("country", JVal.vstr "US"), ("share", JVal.vnum "0.5")],
            JVal.vdict [("country", JVal.vstr "GB"), ("share", JVal.vnum "0.2")],
            JVal.vdict [("country", JVal.vstr "DE"), ("share", JVal.vnum "0.1")]])]])] "example.com" "2024-01-01" _
      [JVal.vdict [("country", JVal.vstr "US"), ("share", JVal.vnum "0.5")],
       JVal.vdict [("country", JVal.vstr "GB"), ("share", JVal.vnum "0.2")],
       JVal.vdict [("country", JVal.vstr "DE"), ("share", JVal.vnum "0.1")]]
      rfl rfl).1 2 (by decide) (by decide)
      [("country", JVal.vstr "GB"), ("share", JVal.vnum "0.2")] rfl |>.1
  · exact (C4_geography_positional [("geography_share", JVal.vlist [JVal.vdict
        [("date", JVal.vstr "2024-01-01"),
         ("value", JVal.vlist
           [JVal.vdict [("country", JVal.vstr "US"), ("share", JVal.vnum "0.5")],
            JVal.vdict [("country", JVal.vstr "GB"), ("share", JVal.vnum "0.2")],
            JVal.vdict [("country", JVal.vstr "DE"), ("share", JVal.vnum "0.1")]])]])] "example.com" "2024-01-01" _
      [JVal.vdict [("country", JVal.vstr "US"), ("share", JVal.vnum "0.5")],
       JVal.vdict [("country", JVal.vstr "GB"), ("share", JVal.vnum "0.2")],
       JVal.vdict [("country", JVal.vstr "DE"), ("share", JVal.vnum "0.1")]]
      rfl rfl).1 3 (by decide) (by decide)
      [("country", JVal.vstr "DE"), ("share", JVal.vnum "0.1")] rfl |>.1
  · exact (C4_geography_positional [("geography_share", JVal.vlist [JVal.vdict
        [("date", JVal.vstr "2024-01-01"),
         ("value", JVal.vlist
           [JVal.vdict [("country", JVal.vstr "US"), ("share", JVal.vnum "0.5")],
            JVal.vdict [("country", JVal.vstr "GB"), ("share", JVal.vnum "0.2")],
            JVal.vdict [("country", JVal.vstr "DE"), ("share", JVal.vnum "0.1")]])]])] "example.com" "2024-01-01" _
      [JVal.vdict [("country", JVal.vstr "US"), ("share", JVal.vnum "0.5")],
       JVal.vdict [("country", JVal.vstr "GB"), ("share", JVal.vnum "0.2")],
       JVal.vdict [("country", JVal.vstr "DE"), ("share", JVal.vnum "0.1")]]
      rfl rfl).2 4 (by decide) (by decide) |>.1
  · exact (C4_geography_positional [("geography_share", JVal.vlist [JVal.vdict
        [("date", JVal.vstr "2024-01-01"),
         ("value", JVal.vlist
           [JVal.vdict [("country", JVal.vstr "US"), ("share", JVal.vnum "0.5")],
            JVal.vdict [("country", JVal.vstr "GB"), ("share", JVal.vnum "0.2")],
            JVal.vdict [("country", JVal.vstr "DE"), ("share", JVal.vnum "0.1")]])]])] "example.com" "2024-01-01" _
      [JVal.vdict [("country", JVal.vstr "US"), ("share", JVal.vnum "0.5")],
       JVal.vdict [("country", JVal.vstr "GB"), ("share", JVal.vnum "0.2")],
       JVal.vdict [("country", JVal.vstr "DE"), ("share", JVal.vnum "0.1")]]
      rfl rfl).2 10 (by decide) (by decide) |>.2

/-- C3 counterexample: on the empty document the geography key is absent,
the date-matched lookup returns the empty string (not a list), and the
produced time-series row contains NO geography columns at all — refuting
the claim that the twenty fields are always present. -/
theorem C3_geography_always_present_counterexample :
    ∃ row, parse_time_series [] "example.com" "2024-01-01" = .ok row ∧
      rget row "geo_country_1" = none ∧ rget row "geo_country_share_1" = none ∧
      rget row "geo_country_10" = none ∧ rget row "geo_country_share_10" = none :=
  ⟨_, rfl, rfl, rfl, rfl, rfl⟩

/-- C3 (amended): the twenty geography columns are present exactly when the
date-matched value under the geography key is a list: any list (even the
empty one) triggers initialization, so all twenty columns are present, and
a matching entry whose value is the empty list leaves all twenty as the
empty string; a non-list value (in particular the empty string produced
when no entry matches or the key is absent) leaves all twenty columns
absent from the row. -/
theorem C3_geography_presence (doc : Doc) (domain date : String) (row : Row)
    (hparse : parse_time_series doc domain date = .ok row) :
    (∀ l, get_metric_value (dget doc "geography_share" (.vlist [])) date = .vlist l →
      ∀ i, 1 ≤ i → i ≤ 10 →
        (rget row (geoKey i)).isSome = true ∧ (rget row (geoShareKey i)).isSome = true) ∧
    ((∀ l, get_metric_value (dget doc "geography_share" (.vlist [])) date ≠ .vlist l) →
      ∀ i, 1 ≤ i → i ≤ 10 →
        rget row (geoKey i) = none ∧ rget row (geoShareKey i) = none) ∧
    (get_metric_value (dget doc "geography_share" (.vlist [])) date = .vlist [] →
      ∀ i, 1 ≤ i → i ≤ 10 →
        rget row (geoKey i) = some (.vstr "") ∧
        rget row (geoShareKey i) = some (.vstr "")) := by
  obtain ⟨m', htr, hrow⟩ := parse_time_series_ok doc domain date row hparse
  refine ⟨?_, ?_, ?_⟩
  · intro l hgv i h1 h2
    rw [hrow, hgv]
    simp only [geoStep]
    have hini := rget_geoInit m' i h1 h2
    exact ⟨rget_isSome_geoFill _ _ _ _ (by rw [hini.1]; rfl),
           rget_isSome_geoFill _ _ _ _ (by rw [hini.2]; rfl)⟩
  · intro hnl i h1 h2
    have hstep : geoStep m'
        (get_metric_value (dget doc "geography_share" (.vlist [])) date) = m' := by
      rcases hv : get_metric_value (dget doc "geography_share" (.vlist [])) date with
        _ | b | r | s | xs | es
      · rfl
      · rfl
      · rfl
      · rfl
      · exact absurd hv (hnl xs)
      · rfl
    rw [hrow, hstep]
    have hne := trafficStep_preserve _ _ _ htr (geoKey i)
      (ne_traffic_of_head _ 'g' (geoKey_head i (by omega)) (by decide))
    have hne2 := trafficStep_preserve _ _ _ htr (geoShareKey i)
      (ne_traffic_of_head _ 'g' (geoShareKey_head i (by omega)) (by decide))
    rw [hne, hne2]
    have hb := geoKey_notin_base i (by omega)
    exact ⟨rget_baseRow_none doc domain date _ hb.1, rget_baseRow_none doc domain date _ hb.2⟩
  · intro hgv i h1 h2
    rw [hrow, hgv]
    exact rget_geoInit m' i h1 h2

/-- Witness for the amended C3: a matched geography entry with an empty
list yields all twenty columns as the empty string; the empty document
yields no geography columns. -/
theorem C3_geography_presence_witness :
    (∃ row, parse_time_series
        [("geography_share", JVal.vlist [JVal.vdict
          [("date", JVal.vstr "2024-01-01"), ("value", JVal.vlist [])]])]
        "example.com" "2024-01-01" = .ok row ∧
      rget row (geoKey 1) = some (.vstr "") ∧
      rget row (geoShareKey 10) = some (.vstr "")) ∧
    (∃ row, parse_time_series [] "example.com" "2024-01-01" = .ok row ∧
      rget row (geoKey 1) = none) := by
  constructor
  · refine ⟨_, rfl, ?_, ?_⟩
    · exact ((C3_geography_presence
        [("geography_share", JVal.vlist [JVal.vdict
          [("date", JVal.vstr "2024-01-01"), ("value", JVal.vlist [])]])]
        "example.com" "2024-01-01" _ rfl).2.2 rfl 1 (by decide) (by decide)).1
    · exact ((C3_geography_presence
        [("geography_share", JVal.vlist [JVal.vdict
          [("date", JVal.vstr "2024-01-01"), ("value", JVal.vlist [])]])]
        "example.com" "2024-01-01" _ rfl).2.2 rfl 10 (by decide) (by decide)).2
  · refine ⟨_, rfl, ?_⟩
    exact ((C3_geography_presence [] "example.com" "2024-01-01" _ rfl).2.1
      (fun l h => JVal.noConfusion h) 1 (by decide) (by decide)).1

theorem str_append_left_cancel {a b c : String} (h : a ++ b = a ++ c) : b = c := by
  have hd := congrArg String.data h
  rw [String.data_append, String.data_append] at hd
  have hbc := List.append_cancel_left hd
  cases b with
  | mk bd =>
    cases c with
    | mk cd =>
      simp only at hbc
      rw [hbc]

theorem ne_of_first_char (a b : String) (ca cb : Char) (ha : a.data.head? = some ca)
    (hb : b.data.head? = some cb) (hc : ca ≠ cb) : a ≠ b := by
  intro h
  rw [h] at ha
  rw [ha] at hb
  injection hb with hb
  exact hc hb

theorem traffic_head (s : String) : ("traffic_" ++ s).data.head? = some 't' := by
  rw [String.data_append]
  rfl

theorem traffic_notin_base (s : String) : ("traffic_" ++ s) ∉ baseKeys := by
  intro h
  simp only [baseKeys, List.mem_cons, List.not_mem_nil, or_false] at h
  rcases h with h | h | h | h | h | h | h | h | h | h
  · exact ne_of_first_char _ "domain" 't' 'd' (traffic_head s) rfl (by decide) h
  · exact ne_of_first_char _ "date" 't' 'd' (traffic_head s) rfl (by decide) h
  · exact ne_of_first_char _ "visits" 't' 'v' (traffic_head s) rfl (by decide) h
  · exact ne_of_first_char _ "unique_visitors" 't' 'u' (traffic_head s) rfl (by decide) h
  · exact ne_of_first_char _ "bounce_rate" 't' 'b' (traffic_head s) rfl (by decide) h
  · exact ne_of_first_char _ "pages_per_visit" 't' 'p' (traffic_head s) rfl (by decide) h
  · exact ne_of_first_char _ "average_visit_duration" 't' 'a' (traffic_head s) rfl (by decide) h
  · exact ne_of_first_char _ "mom_growth" 't' 'm' (traffic_head s) rfl (by decide) h
  · exact ne_of_first_char _ "desktop_share" 't' 'd' (traffic_head s) rfl (by decide) h
  · exact ne_of_first_char _ "mobile_share" 't' 'm' (traffic_head s) rfl (by decide) h

theorem trafficEntry_ok (m : Row) (src : JVal) (h : wellFormedSrc src = true) :
    ∃ m2, trafficEntry m src = .ok m2 := by
  cases src with
  | vdict d =>
      rcases hst : dget d "source_type" (.vstr "") with _ | b | r | s | xs | es <;>
        simp only [wellFormedSrc, hst] at h <;> simp only [trafficEntry, hst]
      case vstr =>
        by_cases hempty : pyLowerUnd s == ""
        · rw [if_pos hempty]
          exact ⟨m, rfl⟩
        · rw [if_neg hempty]
          exact ⟨_, rfl⟩
      all_goals exact absurd h (by simp)
  | vnull => exact ⟨m, rfl⟩
  | vbool b => exact ⟨m, rfl⟩
  | vnum r => exact ⟨m, rfl⟩
  | vstr s => exact ⟨m, rfl⟩
  | vlist xs => exact ⟨m, rfl⟩

theorem trafficFold_ok (l : List JVal) (m : Row) (h : l.all wellFormedSrc = true) :
    ∃ m', trafficFold m l = .ok m' := by
  induction l generalizing m with
  | nil => exact ⟨m, rfl⟩
  | cons src rest ih =>
      rw [List.all_cons, Bool.and_eq_true] at h
      obtain ⟨m2, hm2⟩ := trafficEntry_ok m src h.1
      obtain ⟨m', hm'⟩ := ih m2 h.2
      refine ⟨m', ?_⟩
      unfold trafficFold
      rw [hm2]
      exact hm'

theorem trafficFold_notUsable (l : List JVal) (m m' : Row) (s : String)
    (h : trafficFold m l = .ok m') (hs : s ∉ usableNames l) :
    rget m' ("traffic_" ++ s) = rget m ("traffic_" ++ s) := by
  induction l generalizing m with
  | nil =>
      unfold trafficFold at h
      injection h with h
      rw [h]
  | cons src rest ih =>
      unfold trafficFold at h
      rcases hte : trafficEntry m src with e | m2 <;> rw [hte] at h
      · exact absurd h (by simp)
      · have hsrest : s ∉ usableNames rest := by
          intro hc
          exact hs (by
            unfold usableNames
            rw [List.filterMap_cons]
            rcases usableName src with _ | t
            · exact hc
            · exact List.mem_cons_of_mem _ hc)
        rw [ih m2 h hsrest]
        cases src with
        | vdict d =>
            rcases hst : dget d "source_type" (.vstr "") with _ | b | r | t | xs | es <;>
              simp only [trafficEntry, hst] at hte
            case vstr =>
              by_cases hempty : pyLowerUnd t == ""
              · rw [if_pos hempty] at hte
                injection hte with hte
                rw [hte]
              · rw [if_neg hempty] at hte
                injection hte with hte
                have hname : usableName (.vdict d) = some (pyLowerUnd t) := by
                  simp only [usableName, hst]
                  rw [if_neg hempty]
                have hst2 : s ≠ pyLowerUnd t := by
                  intro hc
                  exact hs (by
                    unfold usableNames
                    rw [List.filterMap_cons, hname, hc]
                    exact List.mem_cons_self _ _)
                rw [← hte, rget_dinsert_ne _ _ _ _
                  (fun hc => hst2 (str_append_left_cancel hc))]
            all_goals exact absurd hte (by simp)
        | vnull => simp only [trafficEntry] at hte; injection hte with hte; rw [hte]
        | vbool b => simp only [trafficEntry] at hte; injection hte with hte; rw [hte]
        | vnum r => simp only [trafficEntry] at hte; injection hte with hte; rw [hte]
        | vstr t => simp only [trafficEntry] at hte; injection hte with hte; rw [hte]
        | vlist xs => simp only [trafficEntry] at hte; injection hte with hte; rw [hte]

theorem trafficEntry_ok_wf (m m2 : Row) (src : JVal) (h : trafficEntry m src = .ok m2) :
    wellFormedSrc src = true := by
  cases src with
  | vdict d =>
      rcases hst : dget d "source_type" (.vstr "") with _ | b | r | s | xs | es <;>
        simp only [trafficEntry, hst] at h <;> simp only [wellFormedSrc, hst]
      all_goals exact absurd h (by simp)
  | vnull => rfl
  | vbool b => rfl
  | vnum r => rfl
  | vstr s => rfl
  | vlist xs => rfl

theorem trafficFold_ok_wf (l : List JVal) : ∀ m m', trafficFold m l = .ok m' →
    l.all wellFormedSrc = true := by
  induction l with
  | nil => intro m m' _; rfl
  | cons src rest ih =>
      intro m m' h
      unfold trafficFold at h
      rcases hte : trafficEntry m src with e | m2 <;> rw [hte] at h
      · exact absurd h (by simp)
      · rw [List.all_cons, Bool.and_eq_true]
        exact ⟨trafficEntry_ok_wf m m2 src hte, ih m2 m' h⟩

theorem trafficFold_hit (l : List JVal) : ∀ (m m' : Row),
    (usableNames l).Nodup → trafficFold m l = .ok m' →
    ∀ x ∈ l, ∀ d, x = .vdict d → ∀ t, dget d "source_type" (.vstr "") = .vstr t →
      pyLowerUnd t ≠ "" → rget m' ("traffic_" ++ pyLowerUnd t) = some (srcShareVal d) := by
  induction l with
  | nil =>
      intro m m' _ h x hx
      cases hx
  | cons src rest ih =>
      intro m m' hnd h x hx d hxd t htt hne
      unfold trafficFold at h
      rcases hte : trafficEntry m src with e | m2 <;> rw [hte] at h
      · exact absurd h (by simp)
      rcases List.mem_cons.mp hx with heq | hmr
      · subst heq
        subst hxd
        have hbne : (pyLowerUnd t == "") ≠ true := by simpa using hne
        simp only [trafficEntry, htt] at hte
        rw [if_neg hbne] at hte
        injection hte with hte
        have hname : usableName (.vdict d) = some (pyLowerUnd t) := by
          simp only [usableName, htt]
          rw [if_neg hbne]
        have hnr : pyLowerUnd t ∉ usableNames rest := by
          have hcons : usableNames (JVal.vdict d :: rest) =
              pyLowerUnd t :: usableNames rest := by
            unfold usableNames
            rw [List.filterMap_cons, hname]
          rw [hcons] at hnd
          exact (List.nodup_cons.mp hnd).1
        rw [trafficFold_notUsable rest m2 m' _ h hnr, ← hte, rget_dinsert_self]
        rfl
      · have hnd2 : (usableNames rest).Nodup := by
          unfold usableNames at hnd ⊢
          rw [List.filterMap_cons] at hnd
          rcases hn : usableName src with _ | u <;> simp only [hn] at hnd
          · exact hnd
          · exact (List.nodup_cons.mp hnd).2
        exact ih m2 m' hnd2 h x hmr d hxd t htt hne

theorem rget_geoStep_other (m : Row) (v : JVal) (k : String)
    (hother : ∀ j, j ≤ 11 → k ≠ geoKey j ∧ k ≠ geoShareKey j) :
    rget (geoStep m v) k = rget m k := by
  cases v with
  | vlist l =>
      simp only [geoStep]
      rw [rget_geoFill_other (l.take 10) (geoInit m) 1 k hother
        (by rw [List.length_take]; have := Nat.min_le_left 10 l.length; omega),
        rget_geoInit_other m k hother]
  | vnull => rfl
  | vbool b => rfl
  | vnum r => rfl
  | vstr s => rfl
  | vdict d => rfl

/-- C5: for every dict entry of the date-matched traffic-source list whose
`source_type` is a string that is non-empty after lowering and replacing
spaces by underscores, the row contains the column `traffic_<name>` whose
value is the stringified `share` (empty string when `share == ''`); when
the transformed names are distinct (each column has one owner) the value
is exactly that entry's; and no `traffic_<s>` column exists for any `s`
that is not the transformed name of some usable entry — in particular
entries without a usable `source_type` emit nothing. -/
theorem C5_traffic_columns (doc : Doc) (domain date : String) (row : Row) (ts : List JVal)
    (hparse : parse_time_series doc domain date = .ok row)
    (htv : get_metric_value (dget doc "traffic_sources" (.vlist [])) date = .vlist ts)
    (hnd : (usableNames ts).Nodup) :
    (∀ x ∈ ts, ∀ d, x = .vdict d → ∀ t, dget d "source_type" (.vstr "") = .vstr t →
      pyLowerUnd t ≠ "" → rget row ("traffic_" ++ pyLowerUnd t) = some (srcShareVal d)) ∧
    (∀ s, s ∉ usableNames ts → rget row ("traffic_" ++ s) = none) := by
  obtain ⟨m', htr, hrow⟩ := parse_time_series_ok doc domain date row hparse
  rw [htv] at htr
  simp only [trafficStep] at htr
  have hgeo : ∀ s, rget row ("traffic_" ++ s) = rget m' ("traffic_" ++ s) := by
    intro s
    rw [hrow]
    exact rget_geoStep_other m' _ ("traffic_" ++ s) (fun j hj =>
      ⟨ne_of_first_char _ _ 't' 'g' (traffic_head s) (geoKey_head j hj) (by decide),
       ne_of_first_char _ _ 't' 'g' (traffic_head s) (geoShareKey_head j hj) (by decide)⟩)
  constructor
  · intro x hx d hxd t htt hne
    rw [hgeo]
    exact trafficFold_hit ts _ m' hnd htr x hx d hxd t htt hne
  · intro s hs
    rw [hgeo, trafficFold_notUsable ts _ m' s htr hs]
    exact rget_baseRow_none doc domain date _ (traffic_notin_base s)

/-- Witness for C5 at the spec's example: a source entry with
`source_type "Organic Search"` and `share 0.42` yields the column
`traffic_organic_search = "0.42"`; no column exists for a name no usable
entry produced. -/
theorem C5_traffic_columns_witness :
    ∃ row, parse_time_series
        [("traffic_sources", JVal.vlist [JVal.vdict
          [("date", JVal.vstr "2024-01-01"),
           ("value", JVal.vlist [JVal.vdict
             [("source_type", JVal.vstr "Organic Search"),
              ("share", JVal.vnum "0.42")]])]])]
        "example.com" "2024-01-01" = .ok row ∧
      rget row "traffic_organic_search" = some (.vstr "0.42") ∧
      rget row "traffic_direct" = none := by
  refine ⟨_, rfl, ?_, ?_⟩
  · exact (C5_traffic_columns
      [("traffic_sources", JVal.vlist [JVal.vdict
        [("date", JVal.vstr "2024-01-01"),
         ("value", JVal.vlist [JVal.vdict
           [("source_type", JVal.vstr "Organic Search"),
            ("share", JVal.vnum "0.42")]])]])]
      "example.com" "2024-01-01" _
      [JVal.vdict [("source_type", JVal.vstr "Organic Search"),
        ("share", JVal.vnum "0.42")]]
      rfl rfl (by decide)).1
      (JVal.vdict [("source_type", JVal.vstr "Organic Search"),
        ("share", JVal.vnum "0.42")])
      (List.mem_cons_self _ _)
      [("source_type", JVal.vstr "Organic Search"), ("share", JVal.vnum "0.42")]
      rfl "Organic Search" rfl (by decide)
  · exact (C5_traffic_columns
      [("traffic_sources", JVal.vlist [JVal.vdict
        [("date", JVal.vstr "2024-01-01"),
         ("value", JVal.vlist [JVal.vdict
           [("source_type", JVal.vstr "Organic Search"),
            ("share", JVal.vnum "0.42")]])]])]
      "example.com" "2024-01-01" _
      [JVal.vdict [("source_type", JVal.vstr "Organic Search"),
        ("share", JVal.vnum "0.42")]]
      rfl rfl (by decide)).2 "direct" (by decide)

/-- C7: when either month bound fails `YYYY-MM` validation, the per-domain
result is a single row carrying only the domain and the fixed error
string, with zero time-series rows, for EVERY transport outcome — the
flattener is never consulted; and a success metadata row never carries an
`error` key, so the two metadata shapes are mutually exclusive. -/
theorem C7_invalid_date_rejection (domain start_date end_date : String)
    (outcome : FetchOutcome)
    (hbad : validate_date_format start_date = false ∨
      validate_date_format end_date = false) :
    fetch_lead_data domain start_date end_date outcome =
      ⟨[[("domain", .vstr domain),
         ("error", .vstr "Invalid date format. Please use YYYY-MM format.")]], []⟩ ∧
    (∀ (doc : Doc) (dom : String), rget (parse_metadata doc dom) "error" = none) := by
  constructor
  · unfold fetch_lead_data
    have hcond : (validate_date_format start_date && validate_date_format end_date)
        = false := by
      rcases hbad with h | h <;> simp [h]
    rw [hcond]
    rfl
  · intro doc dom
    rfl

/-- Witness for C7 at the spec's invalid inputs `2024-13` and `24-03`. -/
theorem C7_invalid_date_rejection_witness :
    validate_date_format "2024-13" = false ∧ validate_date_format "24-03" = false ∧
    (fetch_lead_data "example.com" "2024-13" "2024-03" (.requestExn "timeout") =
      ⟨[[("domain", .vstr "example.com"),
         ("error", .vstr "Invalid date format. Please use YYYY-MM format.")]], []⟩ ∧
     (∀ (doc : Doc) (dom : String), rget (parse_metadata doc dom) "error" = none)) :=
  ⟨by decide, by decide,
    C7_invalid_date_rejection "example.com" "2024-13" "2024-03" (.requestExn "timeout")
      (Or.inl (by decide))⟩

theorem parse_time_series_date_domain (doc : Doc) (domain date : String) (row : Row)
    (h : parse_time_series doc domain date = .ok row) :
    rget row "date" = some (.vstr date) ∧ rget row "domain" = some (.vstr domain) := by
  obtain ⟨m', htr, hrow⟩ := parse_time_series_ok doc domain date row h
  rw [hrow]
  constructor
  · rw [rget_geoStep_other m' _ "date" (fun j hj =>
      ⟨ne_of_first_char _ _ 'd' 'g' rfl (geoKey_head j hj) (by decide),
       ne_of_first_char _ _ 'd' 'g' rfl (geoShareKey_head j hj) (by decide)⟩),
      trafficStep_preserve _ _ _ htr "date" (ne_traffic_of_head _ 'd' rfl (by decide))]
    exact rget_baseRow_date doc domain date
  · rw [rget_geoStep_other m' _ "domain" (fun j hj =>
      ⟨ne_of_first_char _ _ 'd' 'g' rfl (geoKey_head j hj) (by decide),
       ne_of_first_char _ _ 'd' 'g' rfl (geoShareKey_head j hj) (by decide)⟩),
      trafficStep_preserve _ _ _ htr "domain" (ne_traffic_of_head _ 'd' rfl (by decide))]
    exact rget_baseRow_domain doc domain date

theorem mapM_ok_length {α β : Type} (f : α → Except String β) :
    ∀ (l : List α) (ts : List β), l.mapM f = .ok ts → ts.length = l.length := by
  intro l
  induction l with
  | nil =>
      intro ts h
      injection h with h
      rw [← h]
      rfl
  | cons x rest ih =>
      intro ts h
      rw [List.mapM_cons] at h
      rcases hfx : f x with e | b <;> rw [hfx] at h <;>
        simp only [Bind.bind, Except.bind] at h
      · exact absurd h (by simp)
      · rcases hml : rest.mapM f with e2 | bs <;> rw [hml] at h <;>
          simp only [pure, Except.pure] at h
        · exact absurd h (by simp)
        · injection h with h
          rw [← h, List.length_cons, ih bs hml, List.length_cons]

theorem mapM_ok_getElem {α β : Type} (f : α → Except String β) :
    ∀ (l : List α) (ts : List β), l.mapM f = .ok ts →
      ∀ (k : Nat) (hk : k < l.length) (hk' : k < ts.length),
        f (l.get ⟨k, hk⟩) = .ok (ts.get ⟨k, hk'⟩) := by
  intro l
  induction l with
  | nil =>
      intro ts h k hk
      exact absurd hk (by simp)
  | cons x rest ih =>
      intro ts h k hk hk'
      rw [List.mapM_cons] at h
      rcases hfx : f x with e | b <;> rw [hfx] at h <;>
        simp only [Bind.bind, Except.bind] at h
      · exact absurd h (by simp)
      · rcases hml : rest.mapM f with e2 | bs <;> rw [hml] at h <;>
          simp only [pure, Except.pure] at h
        · exact absurd h (by simp)
        · injection h with h
          subst h
          cases k with
          | zero => exact hfx
          | succ k2 =>
              exact ih bs hml k2 (by simpa using hk) (by simpa using hk')

/-- C6: for a domain whose fetch succeeds (HTTP 200 with a JSON-object
body) with valid month bounds `start <= end` and a document every month of
which parses without raising, the per-domain result is exactly one
metadata row and one time-series row per month of the expanded range; the
k-th time-series row's `date` field is the k-th month rendered as
`YYYY-MM-01`, and the `domain` field is the same across the metadata row
and every time-series row. -/
theorem C6_success_shape (domain start_date end_date txt : String) (doc : Doc)
    (a b : Ym) (ts : List Row)
    (hs : validate_date_format start_date = true)
    (he : validate_date_format end_date = true)
    (ha : parseYm start_date = some a) (hb : parseYm end_date = some b)
    (hle : ymIdx a ≤ ymIdx b)
    (hmap : (get_date_range a b).mapM
      (fun d => parse_time_series doc domain (ymToStr d ++ "-01")) = .ok ts) :
    fetch_lead_data domain start_date end_date (.response 200 (some (.vdict doc)) txt) =
      ⟨[parse_metadata doc domain], ts⟩ ∧
    ts.length = ymIdx b - ymIdx a + 1 ∧
    (∀ (k : Nat) (hk : k < ts.length),
      rget (ts.get ⟨k, hk⟩) "date" = some (.vstr (ymToStr (nextMonth^[k] a) ++ "-01")) ∧
      rget (ts.get ⟨k, hk⟩) "domain" = some (.vstr domain)) ∧
    rget (parse_metadata doc domain) "domain" = some (.vstr domain) := by
  have hlen : ts.length = ymIdx b + 1 - ymIdx a := by
    rw [mapM_ok_length _ _ _ hmap, gdr_length]
  have hcond : (validate_date_format start_date && validate_date_format end_date)
      = true := by
    rw [hs, he]
    rfl
  refine ⟨?_, by omega, ?_, rfl⟩
  · unfold fetch_lead_data
    rw [hcond]
    simp only [ha, hb]
    simp only [if_pos]
    rw [hmap]
    rfl
  · intro k hk
    have hkl : k < (get_date_range a b).length := by
      rw [gdr_length]
      omega
    have hfk := mapM_ok_getElem _ (get_date_range a b) ts hmap k hkl hk
    have hget : (get_date_range a b).get ⟨k, hkl⟩ = nextMonth^[k] a := by
      have := gdr_getElem a b k (by omega)
      rw [List.getElem?_eq_some_iff] at this
      obtain ⟨hh, hv⟩ := this
      rw [← hv]
      rfl
    rw [hget] at hfk
    exact parse_time_series_date_domain doc domain _ _ hfk

/-- Witness for C6 at the spec's end-to-end example: domain `amazon.com`,
months 2024-01 to 2024-03, successful fetch of an (empty) document. -/
theorem C6_success_shape_witness :
    ∃ ts, (get_date_range ⟨2024, 1⟩ ⟨2024, 3⟩).mapM
        (fun d => parse_time_series [] "amazon.com" (ymToStr d ++ "-01")) = .ok ts ∧
      (fetch_lead_data "amazon.com" "2024-01" "2024-03"
          (.response 200 (some (.vdict [])) "") =
        ⟨[parse_metadata [] "amazon.com"], ts⟩ ∧
       ts.length = ymIdx ⟨2024, 3⟩ - ymIdx ⟨2024, 1⟩ + 1 ∧
       (∀ (k : Nat) (hk : k < ts.length),
         rget (ts.get ⟨k, hk⟩) "date" =
           some (.vstr (ymToStr (nextMonth^[k] (⟨2024, 1⟩ : Ym)) ++ "-01")) ∧
         rget (ts.get ⟨k, hk⟩) "domain" = some (.vstr "amazon.com")) ∧
       rget (parse_metadata [] "amazon.com") "domain" = some (.vstr "amazon.com")) := by
  refine ⟨_, rfl, ?_⟩
  exact C6_success_shape "amazon.com" "2024-01" "2024-03" "" [] ⟨2024, 1⟩ ⟨2024, 3⟩ _
    (by decide) (by decide) (by decide) (by decide) (by decide) rfl

theorem allStr_dinsert (m : Row) (k : String) (t : String) (h : allStr m) :
    allStr (dinsert m k (.vstr t)) := by
  unfold dinsert
  by_cases hm : m.any (fun p => p.1 == k)
  · rw [if_pos hm]
    intro p hp
    rw [List.mem_map] at hp
    obtain ⟨q, hq, hqp⟩ := hp
    subst hqp
    by_cases hqk : q.1 = k
    · simp only [hqk, beq_self_eq_true, if_pos]
      exact ⟨t, rfl⟩
    · have hneq : (q.1 == k) = false := by simp [hqk]
      simp only [hneq, Bool.false_eq_true, if_neg, not_false_iff]
      exact h q hq
  · rw [if_neg hm]
    intro p hp
    rcases List.mem_append.mp hp with h1 | h1
    · exact h p h1
    · simp only [List.mem_singleton] at h1
      rw [h1]
      exact ⟨t, rfl⟩

theorem allStr_mdShare (m : Row) (v : JVal) (h : allStr m) : allStr (mdShare m v) := by
  cases v <;> simp only [mdShare] <;>
    exact allStr_dinsert _ _ _ (allStr_dinsert _ _ _ h)

theorem allStr_base (doc : Doc) (domain date : String) :
    allStr (baseRow doc domain date) := by
  have h0 : allStr [("domain", JVal.vstr domain), ("date", JVal.vstr date)] := by
    intro p hp
    simp only [List.mem_cons, List.not_mem_nil, or_false] at hp
    rcases hp with h | h <;> (rw [h]; exact ⟨_, rfl⟩)
  unfold baseRow
  exact allStr_mdShare _ _ (allStr_dinsert _ _ _ (allStr_dinsert _ _ _ (allStr_dinsert _ _ _
    (allStr_dinsert _ _ _ (allStr_dinsert _ _ _ (allStr_dinsert _ _ _ h0))))))

theorem allStr_trafficEntry (m m2 : Row) (src : JVal)
    (h : trafficEntry m src = .ok m2) (hm : allStr m) : allStr m2 := by
  cases src with
  | vdict d =>
      rcases hst : dget d "source_type" (.vstr "") with _ | b | r | s | xs | es <;>
        simp only [trafficEntry, hst] at h
      case vstr =>
        by_cases hempty : pyLowerUnd s == ""
        · rw [if_pos hempty] at h
          injection h with h
          rw [← h]
          exact hm
        · rw [if_neg hempty] at h
          injection h with h
          rw [← h]
          exact allStr_dinsert _ _ _ hm
      all_goals exact absurd h (by simp)
  | vnull => injection h with h; rw [← h]; exact hm
  | vbool b => injection h with h; rw [← h]; exact hm
  | vnum r => injection h with h; rw [← h]; exact hm
  | vstr s => injection h with h; rw [← h]; exact hm
  | vlist xs => injection h with h; rw [← h]; exact hm

theorem allStr_trafficFold (l : List JVal) : ∀ (m m' : Row),
    trafficFold m l = .ok m' → allStr m → allStr m' := by
  induction l with
  | nil =>
      intro m m' h hm
      injection h with h
      rw [← h]
      exact hm
  | cons src rest ih =>
      intro m m' h hm
      unfold trafficFold at h
      rcases hte : trafficEntry m src with e | m2 <;> rw [hte] at h
      · exact absurd h (by simp)
      · exact ih m2 m' h (allStr_trafficEntry m m2 src hte hm)

theorem allStr_trafficStep (v : JVal) (m m' : Row)
    (h : trafficStep m v = .ok m') (hm : allStr m) : allStr m' := by
  cases v with
  | vlist l => exact allStr_trafficFold l m m' h hm
  | vnull => injection h with h; rw [← h]; exact hm
  | vbool b => injection h with h; rw [← h]; exact hm
  | vnum r => injection h with h; rw [← h]; exact hm
  | vstr s => injection h with h; rw [← h]; exact hm
  | vdict d => injection h with h; rw [← h]; exact hm

theorem allStr_geoInit (m : Row) (h : allStr m) : allStr (geoInit m) := by
  unfold geoInit
  have hgen : ∀ (is : List Nat) (m0 : Row), allStr m0 →
      allStr (is.foldl
        (fun m i => dinsert (dinsert m (geoKey i) (.vstr "")) (geoShareKey i) (.vstr ""))
        m0) := by
    intro is
    induction is with
    | nil => intro m0 hm0; exact hm0
    | cons x rest ih =>
        intro m0 hm0
        simp only [List.foldl_cons]
        exact ih _ (allStr_dinsert _ _ _ (allStr_dinsert _ _ _ hm0))
  exact hgen _ m h

theorem allStr_geoFill (l : List JVal) : ∀ (m : Row) (i : Nat), allStr m →
    allStr (geoFill m l i) := by
  induction l with
  | nil => intro m i hm; exact hm
  | cons c rest ih =>
      intro m i hm
      cases c with
      | vdict d =>
          simp only [geoFill]
          exact ih _ (i + 1) (allStr_dinsert _ _ _ (allStr_dinsert _ _ _ hm))
      | vnull => exact ih m (i + 1) hm
      | vbool b => exact ih m (i + 1) hm
      | vnum r => exact ih m (i + 1) hm
      | vstr s => exact ih m (i + 1) hm
      | vlist xs => exact ih m (i + 1) hm

theorem allStr_geoStep (m : Row) (v : JVal) (hm : allStr m) : allStr (geoStep m v) := by
  cases v with
  | vlist l => exact allStr_geoFill _ _ _ (allStr_geoInit m hm)
  | vnull => exact hm
  | vbool b => exact hm
  | vnum r => exact hm
  | vstr s => exact hm
  | vdict d => exact hm

/-- C8 counterexample: a document supplying the number `123` for
`global_rank` produces a metadata row whose `global_rank` cell is that
number unchanged — not a string — because `parse_metadata` applies no
`str()` coercion. -/
theorem C8_all_values_strings_counterexample :
    rget (parse_metadata [("global_rank", JVal.vnum "123")] "example.com") "global_rank"
      = some (.vnum "123") ∧
    (∀ s, JVal.vnum "123" ≠ JVal.vstr s) :=
  ⟨rfl, fun _ h => JVal.noConfusion h⟩

/-- C8 (amended): every cell of every time-series row is a string (every
value written by `parse_time_series` passes through `str()`), but metadata
rows pass document values through unmodified: apart from the
caller-supplied `domain`, each metadata cell is exactly the document's
value under the same key (empty string when absent), so a numeric document
value yields a non-string metadata cell. -/
theorem C8_string_coercion (doc : Doc) (domain date : String) (row : Row)
    (hparse : parse_time_series doc domain date = .ok row) :
    (∀ p ∈ row, ∃ s, p.2 = JVal.vstr s) ∧
    (∀ k v, (k, v) ∈ parse_metadata doc domain → k ≠ "domain" →
      v = dget doc k (.vstr "")) := by
  constructor
  · obtain ⟨m', htr, hrow⟩ := parse_time_series_ok doc domain date row hparse
    rw [hrow]
    exact allStr_geoStep m' _ (allStr_trafficStep _ _ _ htr (allStr_base doc domain date))
  · intro k v hm hk
    simp only [parse_metadata, List.mem_cons, List.not_mem_nil, or_false] at hm
    rcases hm with h | h | h | h | h | h | h | h | h | h | h | h | h
    · injection h with h1 h2
      exact absurd h1 hk
    all_goals (injection h with h1 h2; subst h1; exact h2)

/-- Witness for the amended C8: on a document with a numeric `visits`
metric entry, every cell of the produced time-series row is a string. -/
theorem C8_string_coercion_witness :
    ∃ row, parse_time_series
        [("visits", JVal.vlist [JVal.vdict
          [("date", JVal.vstr "2024-01-01"), ("value", JVal.vnum "7")]])]
        "example.com" "2024-01-01" = .ok row ∧
      ((∀ p ∈ row, ∃ s, p.2 = JVal.vstr s) ∧
       (∀ k v, (k, v) ∈ parse_metadata
           [("visits", JVal.vlist [JVal.vdict
             [("date", JVal.vstr "2024-01-01"), ("value", JVal.vnum "7")]])]
           "example.com" → k ≠ "domain" →
         v = dget [("visits", JVal.vlist [JVal.vdict
           [("date", JVal.vstr "2024-01-01"), ("value", JVal.vnum "7")]])]
           k (.vstr ""))) :=
  ⟨_, rfl, C8_string_coercion
    [("visits", JVal.vlist [JVal.vdict
      [("date", JVal.vstr "2024-01-01"), ("value", JVal.vnum "7")]])]
    "example.com" "2024-01-01" _ rfl⟩

/-- C9 counterexample: with three domains of which exactly the second
yields an error-shaped result, the accumulated metadata table contains the
two success rows and ZERO error-shaped rows — not "exactly one" — because
the batch loop `continue`s past a failing domain without appending its
error row. -/
theorem C9_error_row_accumulation_counterexample :
    ((process_batch ["a", "b", "c"] (fun d =>
        if d == "b" then errorResult d "HTTP Error 500"
        else ⟨[[("domain", JVal.vstr d)]],
              [[("domain", JVal.vstr d), ("date", JVal.vstr "2024-01-01")]]⟩)).1.countP
      (fun row => (rget row "error").isSome)) = 0 ∧
    (process_batch ["a", "b", "c"] (fun d =>
        if d == "b" then errorResult d "HTTP Error 500"
        else ⟨[[("domain", JVal.vstr d)]],
              [[("domain", JVal.vstr d), ("date", JVal.vstr "2024-01-01")]]⟩)).1.length = 2 ∧
    (0 : Nat) ≠ 1 :=
  ⟨rfl, rfl, by decide⟩

/-- C9 (amended): with three domains of which exactly the second produces
an error-shaped result (truthy `error` in its first metadata row),
processing continues past the failure and the `has_errors` flag is set,
but the failing domain's rows are skipped by `continue`: the accumulated
tables hold exactly the two success results' metadata rows (zero
error-shaped rows) and time-series rows only for the two successes. -/
theorem C9_batch_error_handling (d1 d2 d3 : String) (f : String → FetchResult)
    (h1 : errFlag (f d1) = false) (h2 : errFlag (f d2) = true)
    (h3 : errFlag (f d3) = false) :
    process_batch [d1, d2, d3] f =
      ((f d1).metadata ++ (f d3).metadata,
       (f d1).time_series ++ (f d3).time_series, true) := by
  unfold process_batch
  simp only [List.foldl_cons, List.foldl_nil, batchStep, h1, h2, h3]
  simp

/-- Witness for the amended C9 at a concrete three-domain batch in which
only the middle domain fails. -/
theorem C9_batch_error_handling_witness :
    errFlag ((fun d => if d == "b" then errorResult d "HTTP Error 500"
      else (⟨[[("domain", JVal.vstr d)]],
        [[("domain", JVal.vstr d), ("date", JVal.vstr "2024-01-01")]]⟩ : FetchResult)) "a")
      = false ∧
    errFlag ((fun d => if d == "b" then errorResult d "HTTP Error 500"
      else (⟨[[("domain", JVal.vstr d)]],
        [[("domain", JVal.vstr d), ("date", JVal.vstr "2024-01-01")]]⟩ : FetchResult)) "b")
      = true ∧
    errFlag ((fun d => if d == "b" then errorResult d "HTTP Error 500"
      else (⟨[[("domain", JVal.vstr d)]],
        [[("domain", JVal.vstr d), ("date", JVal.vstr "2024-01-01")]]⟩ : FetchResult)) "c")
      = false ∧
    process_batch ["a", "b", "c"] (fun d =>
        if d == "b" then errorResult d "HTTP Error 500"
        else ⟨[[("domain", JVal.vstr d)]],
              [[("domain", JVal.vstr d), ("date", JVal.vstr "2024-01-01")]]⟩) =
      ([[("domain", JVal.vstr "a")]] ++ [[("domain", JVal.vstr "c")]],
       [[("domain", JVal.vstr "a"), ("date", JVal.vstr "2024-01-01")]] ++
         [[("domain", JVal.vstr "c"), ("date", JVal.vstr "2024-01-01")]], true) :=
  ⟨rfl, rfl, rfl, C9_batch_error_handling "a" "b" "c" _ rfl rfl rfl⟩
